import Mathlib

/-!
Verification model of the `electron-conf` configuration store engine
(`src/conf.ts`, `src/utils.ts`).

JavaScript documents are modelled as JSON-like trees (`JVal`).  Objects are
association lists of string keys; the engine never builds duplicate keys
(plain JS objects cannot hold them), and well-formedness (`WFb`) records that.
The store state (`St`) carries the in-memory cache (`_store`), the parsed
content of the on-disk file, and the list of documents committed through the
`store` setter, in order — one entry per dispatched `change` event.
Operations are state transformers returning `Except ConfErr α × St`, so that
a thrown `TypeError` or schema violation leaves the state it threw from
visible to the theorems.
-/

/-- JSON-serializable JavaScript values: the document universe of the store. -/
inductive JVal where
  | null : JVal
  | bool : Bool → JVal
  | num : Int → JVal
  | str : String → JVal
  | arr : List JVal → JVal
  | obj : List (String × JVal) → JVal
deriving Repr

/-- First binding of a key in an object field list (JS property lookup). -/
def lookupF (k : String) : List (String × JVal) → Option JVal
  | [] => none
  | (k', v) :: rest => if k' = k then some v else lookupF k rest

mutual

/-- `deepEqual` from `src/utils.ts`: `util.isDeepStrictEqual`.  Objects
compare by key set and pointwise deep equality (insertion order ignored);
arrays compare positionally. -/
def deepEqual : JVal → JVal → Bool
  | .null, .null => true
  | .bool a, .bool b => a == b
  | .num a, .num b => a == b
  | .str a, .str b => a == b
  | .arr xs, .arr ys => deepEqualList xs ys
  | .obj fs, .obj gs => fs.length == gs.length && deepEqualFields fs gs
  | _, _ => false

/-- Positional deep equality of array elements. -/
def deepEqualList : List JVal → List JVal → Bool
  | [], [] => true
  | x :: xs, y :: ys => deepEqual x y && deepEqualList xs ys
  | _, _ => false

/-- Every field of the first list is present in the second with a deeply
equal value. -/
def deepEqualFields : List (String × JVal) → List (String × JVal) → Bool
  | [], _ => true
  | (k, v) :: rest, gs =>
      (match lookupF k gs with
       | some w => deepEqual v w
       | none => false) && deepEqualFields rest gs

end

/-- Deep equality lifted to possibly-undefined values (`undefined` is deeply
equal only to itself). -/
def optDeepEqual : Option JVal → Option JVal → Bool
  | none, none => true
  | some a, some b => deepEqual a b
  | _, _ => false

/-- JS `String.prototype.startsWith`, modelled over the character list (the
kernel-evaluable form of `String.startsWith`). -/
def strStartsWith (s pre : String) : Bool :=
  pre.data.isPrefixOf s.data

/-- One step of the path split: a dot starts a new segment, any other
character extends the current head segment. -/
def splitStep (c : Char) (acc : List String) : List String :=
  match acc with
  | seg :: rest =>
      if c = '.' then "" :: seg :: rest
      else String.mk (c :: seg.data) :: rest
  | [] => []

/-- JS `"k".split "."`: dot-separated path segments. -/
def splitPath (s : String) : List String :=
  s.data.foldr splitStep [""]

/-- Walk a document along a list of path segments through object keys. -/
def getSegs : JVal → List String → Option JVal
  | v, [] => some v
  | .obj fs, k :: rest =>
      match lookupF k fs with
      | some v => getSegs v rest
      | none => none
  | _, _ :: _ => none

/-- Modelled from the spec (external path accessor, dot-prop `getProperty`):
get on a missing path returns the provided default, which may itself be
undefined (`none`). -/
def getProperty (doc : JVal) (path : String) (dflt : Option JVal) : Option JVal :=
  match getSegs doc (splitPath path) with
  | some v => some v
  | none => dflt

/-- Modelled from the spec (external path accessor, dot-prop `hasProperty`). -/
def hasProperty (doc : JVal) (path : String) : Bool :=
  (getSegs doc (splitPath path)).isSome

/-- JS property assignment on a field list: an existing key keeps its
position, a new key is appended. -/
def setObjKey : List (String × JVal) → String → JVal → List (String × JVal)
  | [], k, v => [(k, v)]
  | (k', w) :: rest, k, v =>
      if k' = k then (k', v) :: rest else (k', w) :: setObjKey rest k v

/-- The intermediate mapping a path write descends into: the existing child
when it is a mapping, else a fresh empty mapping. -/
def childObj : Option JVal → JVal
  | some (.obj gs) => .obj gs
  | _ => .obj []

/-- `setProperty` on pre-split segments: intermediate non-mapping values are
replaced by fresh mappings; a non-object root is returned unchanged. -/
def setSegs : JVal → List String → JVal → JVal
  | doc, [], _ => doc
  | .obj fs, [k], v => .obj (setObjKey fs k v)
  | .obj fs, k :: k2 :: rest, v =>
      .obj (setObjKey fs k (setSegs (childObj (lookupF k fs)) (k2 :: rest) v))
  | doc, _ :: _, _ => doc

/-- Modelled from the spec (external path accessor, dot-prop `setProperty`):
set creates intermediate mappings as needed, mutating in place — modelled
functionally as returning the updated document. -/
def setProperty (doc : JVal) (path : String) (v : JVal) : JVal :=
  setSegs doc (splitPath path) v

/-- JS `delete` of one key from a field list. -/
def delObjKey : List (String × JVal) → String → List (String × JVal)
  | [], _ => []
  | (k', v) :: rest, k => if k' = k then rest else (k', v) :: delObjKey rest k

/-- `deleteProperty` on pre-split segments: delete on a missing path is a
no-op. -/
def deleteSegs : JVal → List String → JVal
  | doc, [] => doc
  | .obj fs, [k] => .obj (delObjKey fs k)
  | .obj fs, k :: k2 :: rest =>
      match lookupF k fs with
      | some child => .obj (setObjKey fs k (deleteSegs child (k2 :: rest)))
      | none => .obj fs
  | doc, _ :: _ => doc

/-- Modelled from the spec (external path accessor, dot-prop
`deleteProperty`). -/
def deleteProperty (doc : JVal) (path : String) : JVal :=
  deleteSegs doc (splitPath path)

/-- `createPlainObject` from `src/utils.ts`: `Object.create(null)`. -/
def createPlainObject : JVal := .obj []

/-- The own enumerable properties of a JS value, in enumeration order: an
object yields its fields, an array its indexed elements, a string its
indexed characters, and a primitive nothing. -/
def ownFields : JVal → List (String × JVal)
  | .obj fs => fs
  | .arr xs => xs.enum.map fun p => (toString p.1, p.2)
  | .str s => s.data.enum.map fun p => (toString p.1, JVal.str (String.mk [p.2]))
  | _ => []

/-- `Object.assign` of the own enumerable fields of `src` onto `acc`. -/
def assignFields (acc : List (String × JVal)) (src : JVal) : List (String × JVal) :=
  (ownFields src).foldl (fun a p => setObjKey a p.1 p.2) acc

/-- `cloneObject` from `src/utils.ts`:
`Object.assign(createPlainObject(), source)` — a shallow copy.  In this
value semantics a shallow copy of an object denotes the same field list;
reference sharing of the nested values is treated in the heap model below. -/
def cloneObject (source : JVal) : JVal := .obj (assignFields [] source)

/-- `mergeObject` from `src/utils.ts`:
`Object.assign(createPlainObject(), ...sources)` with the two sources the
engine passes: a SHALLOW merge — later top-level values win wholesale. -/
def mergeObject (a b : JVal) : JVal := .obj (assignFields (assignFields [] a) b)

mutual

/-- `deepCloneObject` from `src/utils.ts`: recursively rebuilds arrays and
objects, returning primitives as-is. -/
def deepCloneObject : JVal → JVal
  | .arr xs => .arr (deepCloneList xs)
  | .obj fs => .obj (deepCloneFields fs)
  | v => v

/-- Elementwise `deepCloneObject` over an array. -/
def deepCloneList : List JVal → List JVal
  | [] => []
  | x :: xs => deepCloneObject x :: deepCloneList xs

/-- Fieldwise `deepCloneObject` over object fields. -/
def deepCloneFields : List (String × JVal) → List (String × JVal)
  | [] => []
  | (k, v) :: rest => (k, deepCloneObject v) :: deepCloneFields rest

end

/-- JS `value === null`. -/
def isNull : JVal → Bool
  | .null => true
  | _ => false

/-- Key `k` does not occur among the keys of the field list. -/
def freshKey (k : String) (fs : List (String × JVal)) : Bool :=
  (lookupF k fs).isNone

/-- No key occurs twice in the field list. -/
def noDupKeys : List (String × JVal) → Bool
  | [] => true
  | (k, _) :: rest => freshKey k rest && noDupKeys rest

mutual

/-- Well-formed document: every object in the tree has pairwise distinct
keys, as any document arising from real JS objects does. -/
def WFb : JVal → Bool
  | .arr xs => WFbList xs
  | .obj fs => noDupKeys fs && WFbFields fs
  | _ => true

/-- `WFb` over array elements. -/
def WFbList : List JVal → Bool
  | [] => true
  | x :: xs => WFb x && WFbList xs

/-- `WFb` over object field values. -/
def WFbFields : List (String × JVal) → Bool
  | [] => true
  | (_, v) :: rest => WFb v && WFbFields rest

end

namespace BaseConf

/-- Errors thrown by the engine: argument-guard `TypeError`s and the schema
violation raised by `validate` (its aggregated message text is not
modelled). -/
inductive ConfErr where
  | typeError : String → ConfErr
  | schemaViolation : ConfErr
deriving Repr, DecidableEq

/-- A value a JS caller can pass to `set`: JSON-representable data or one of
the banned runtime kinds from `BAN_TYPES` (`undefined`, `function`,
`symbol`). -/
inductive JSVal where
  | json : JVal → JSVal
  | undef : JSVal
  | fn : JSVal
  | sym : JSVal
deriving Repr

/-- Per-instance immutable configuration: the compiled schema validator
(the deterministic `ajv` validator modelled as a Boolean predicate) and the
recorded `defaultValues` (the shallow copy of the `defaults` option). -/
structure Config where
  validator : Option (JVal → Bool)
  defaultValues : List (String × JVal)

/-- Mutable state of a `BaseConf` instance: the `_store` cache, the parsed
content of the on-disk file (`none` when the file does not exist), and the
documents dispatched as `change` events, in order. -/
structure St where
  cache : Option JVal
  file : Option JVal
  broadcasts : List JVal

def INTERNAL_KEY : String := "__internal__"

def MIGRATION_KEY : String := INTERNAL_KEY ++ ".migrationVersion"

/-- `BaseConf.validate`: silent without a validator or on success; a failing
validator throws (ajv records `errors` exactly when validation fails). -/
def validate (c : Config) (data : JVal) : Except ConfErr Unit :=
  match c.validator with
  | none => .ok ()
  | some f => if f data then .ok () else .error .schemaViolation

/-- `BaseConf.read`: a missing file yields a fresh empty plain object; an
existing file is deserialized and shallow-cloned. -/
def read (s : St) : JVal :=
  match s.file with
  | none => createPlainObject
  | some v => cloneObject v

/-- The `store` getter: a shallow clone of the cache when present; otherwise
read the file, assign the cache, then validate — the assignment precedes
validation in the source, so it survives a validation throw. -/
def storeGet (c : Config) (s : St) : Except ConfErr JVal × St :=
  match s.cache with
  | some v => (.ok (cloneObject v), s)
  | none =>
      let v := read s
      let s' : St := { s with cache := some v }
      match validate c v with
      | .ok _ => (.ok v, s')
      | .error e => (.error e, s')

/-- The `store` setter: validate, persist, swap the cache, dispatch a
`change` event — in that order, so a validation throw leaves cache and file
untouched.  The persist step is modelled as succeeding; the write path
itself is `write` below. -/
def storeSet (c : Config) (value : JVal) (s : St) : Except ConfErr Unit × St :=
  match validate c value with
  | .error e => (.error e, s)
  | .ok _ =>
      (.ok (), { cache := some value, file := some value,
                 broadcasts := s.broadcasts ++ [value] })

/-- Argument of `set`: single-key form or bulk (hashmap) form.  The guard
rejecting a key that is neither a string nor an object is prior to this
type. -/
inductive SetArg where
  | single : String → JSVal → SetArg
  | bulk : List (String × JSVal) → SetArg

/-- `BaseConf.containsReservedKey`, exactly as in the source: for an object
argument only the FIRST top-level key is compared against `__internal__`,
and a string key is reserved only when it starts with `"__internal__."`
(a bare string key `"__internal__"` falls through both checks). -/
def containsReservedKey : SetArg → Bool
  | .bulk pairs =>
      match pairs.head? with
      | some p => p.1 == INTERNAL_KEY
      | none => false
  | .single k _ => strStartsWith k (INTERNAL_KEY ++ ".")

/-- The guard `typeof key !== 'object' && value === undefined` of
`BaseConf.set`. -/
def undefGuard : SetArg → Bool
  | .single _ .undef => true
  | _ => false

/-- The inner `set` closure of `BaseConf.set` folded over the pending pairs:
each value is checked against `BAN_TYPES` before its property is set; a
throw abandons the local snapshot. -/
def applyPairs (store : JVal) : List (String × JSVal) → Except ConfErr JVal
  | [] => .ok store
  | (k, v) :: rest =>
      match v with
      | .json j => applyPairs (setProperty store k j) rest
      | _ => .error (.typeError ("Setting a value of a banned type is not allowed as it is not supported."))

/-- `BaseConf.set`: undefined-value guard, reserved-key guard, fetch a
snapshot, apply every pair to it, commit once through the `store` setter. -/
def set (c : Config) (arg : SetArg) (s : St) : Except ConfErr Unit × St :=
  if undefGuard arg then
    (.error (.typeError ("Use delete to clear values.")), s)
  else if containsReservedKey arg then
    (.error (.typeError ("Please do not use the __internal__ key, as it is used to manage this module internal operations.")), s)
  else
    match storeGet c s with
    | (.error e, s') => (.error e, s')
    | (.ok store, s') =>
        let pairs :=
          match arg with
          | .single k v => [(k, v)]
          | .bulk ps => ps
        match applyPairs store pairs with
        | .error e => (.error e, s')
        | .ok store' => storeSet c store' s'

/-- `BaseConf.get`: `getProperty` on a fresh snapshot; no side effects on a
populated cache. -/
def get (c : Config) (key : String) (dflt : Option JVal) (s : St) :
    Except ConfErr (Option JVal) × St :=
  match storeGet c s with
  | (.error e, s') => (.error e, s')
  | (.ok store, s') => (.ok (getProperty store key dflt), s')

/-- `BaseConf.has`: `hasProperty` on a fresh snapshot. -/
def has (c : Config) (key : String) (s : St) : Except ConfErr Bool × St :=
  match storeGet c s with
  | (.error e, s') => (.error e, s')
  | (.ok store, s') => (.ok (hasProperty store key), s')

/-- `BaseConf.delete`: remove the path from a snapshot and commit. -/
def delete (c : Config) (key : String) (s : St) : Except ConfErr Unit × St :=
  match storeGet c s with
  | (.error e, s') => (.error e, s')
  | (.ok store, s') => storeSet c (deleteProperty store key) s'

/-- `BaseConf.reset`: for each key, deep-clone its recorded default; when
the default is neither undefined (`none`) nor null, `set` it through the
public path. -/
def reset (c : Config) (keys : List String) (s : St) : Except ConfErr Unit × St :=
  match keys with
  | [] => (.ok (), s)
  | k :: rest =>
      match (lookupF k c.defaultValues).map deepCloneObject with
      | none => reset c rest s
      | some v =>
          if isNull v then reset c rest s
          else
            match set c (.single k (.json v)) s with
            | (.error e, s') => (.error e, s')
            | (.ok _, s') => reset c rest s'

/-- `BaseConf.clear`: commit a fresh empty plain object, then reset every
key of `defaultValues`. -/
def clear (c : Config) (s : St) : Except ConfErr Unit × St :=
  match storeSet c createPlainObject s with
  | (.error e, s') => (.error e, s')
  | (.ok _, s') => reset c (c.defaultValues.map Prod.fst) s'

end BaseConf

namespace BaseConf

/-- A migration: a version and a hook.  The hook receives the current
version and acts on the store instance — modelled as an arbitrary state
transformer over the same instance state, which is what a hook calling the
public methods amounts to. -/
structure Migration where
  version : Int
  hook : Int → St → Except ConfErr Unit × St

/-- The ascending-by-version order the migration comparator
`a.version - b.version` induces. -/
def migLE (a b : Migration) : Prop := a.version ≤ b.version

instance : DecidableRel migLE := fun a b => inferInstanceAs (Decidable (a.version ≤ b.version))

instance : IsTotal Migration migLE := ⟨fun a b => Int.le_total a.version b.version⟩

instance : IsTrans Migration migLE := ⟨fun _ _ _ h₁ h₂ => le_trans h₁ h₂⟩

/-- Stable ascending sort by version, as JS `Array.prototype.sort` with the
comparator `a.version - b.version` is: insertion before the first element
of greater-or-equal version. -/
def sortMigrations (ms : List Migration) : List Migration :=
  List.insertionSort migLE ms

/-- The `version` value read in `BaseConf.migrate`:
`getProperty(this.store, MIGRATION_KEY, 0)`. -/
def readVersion (store : JVal) : JVal :=
  (getProperty store MIGRATION_KEY (some (.num 0))).getD (.num 0)

/-- Body of the migration loop: run the hook with the version in effect,
fetch the store, stamp `__internal__.migrationVersion` with the migration
version, commit through the `store` setter, continue with the bumped
version. -/
def migrateLoop (c : Config) : List Migration → Int → St → Except ConfErr Unit × St
  | [], _, s => (.ok (), s)
  | m :: rest, version, s =>
      match m.hook version s with
      | (.error e, s') => (.error e, s')
      | (.ok _, s') =>
          match storeGet c s' with
          | (.error e, s'') => (.error e, s'')
          | (.ok store, s'') =>
              match storeSet c (setProperty store MIGRATION_KEY (.num m.version)) s'' with
              | (.error e, s''') => (.error e, s''')
              | (.ok _, s''') => migrateLoop c rest m.version s'''

/-- `BaseConf.migrate`: on a non-empty migration list, read the recorded
version (defaulting to 0), sort ascending, filter to the strictly newer,
and run the loop.  A non-numeric recorded version cannot be produced by the
engine itself and is modelled as passing no migration. -/
def migrate (c : Config) (migrations : Option (List Migration)) (s : St) :
    Except ConfErr Unit × St :=
  match migrations with
  | none => (.ok (), s)
  | some ms =>
      if ms.isEmpty then (.ok (), s)
      else
        match storeGet c s with
        | (.error e, s') => (.error e, s')
        | (.ok store, s') =>
            match readVersion store with
            | .num v =>
                migrateLoop c
                  ((sortMigrations ms).filter fun m => decide (v < m.version)) v s'
            | _ => (.ok (), s')

/-- The `BaseConf` constructor after option resolution: build the validator
and `defaultValues`, force the `store` getter once, on supplied defaults
merge the loaded document over a deep clone of the defaults (a SHALLOW
merge via `Object.assign`), validate, persist the merged document exactly
when it differs deeply from the loaded one, then migrate. -/
def construct (validator : Option (JVal → Bool))
    (defaults : Option (List (String × JVal)))
    (migrations : Option (List Migration)) (file0 : Option JVal) :
    Except ConfErr Unit × (Config × St) :=
  let s0 : St := { cache := none, file := file0, broadcasts := [] }
  let c : Config :=
    { validator := validator,
      defaultValues := match defaults with | some d => d | none => [] }
  match storeGet c s0 with
  | (.error e, s1) => (.error e, (c, s1))
  | (.ok fileStore, s1) =>
      match defaults with
      | none =>
          match migrate c migrations s1 with
          | (r, s2) => (r, (c, s2))
      | some d =>
          let store := mergeObject (deepCloneObject (.obj d)) fileStore
          match validate c store with
          | .error e => (.error e, (c, s1))
          | .ok _ =>
              match
                (if deepEqual fileStore store then ((Except.ok ()), s1)
                 else storeSet c store s1) with
              | (.error e, s2) => (.error e, (c, s2))
              | (.ok _, s2) =>
                  match migrate c migrations s2 with
                  | (r, s3) => (r, (c, s3))

/-- Failure classification of one file-system write attempt. -/
inductive WriteErr where
  | EXDEV : WriteErr
  | other : String → WriteErr
deriving Repr, DecidableEq

/-- The write primitive a persist attempt goes through. -/
inductive WriteMethod where
  | atomic : WriteMethod
  | direct : WriteMethod
deriving Repr, DecidableEq

/-- `BaseConf.write`, modelled over the environment (`process.env.SNAP`)
and the outcome the file system would give each attempt: the attempts made
in order, and the overall result.  With SNAP set, the single direct write;
otherwise the atomic write is tried, only an EXDEV failure falls back to a
direct write, and any other error is rethrown unchanged. -/
def write (snap : Bool) (atomicOutcome directOutcome : Except WriteErr Unit) :
    List WriteMethod × Except WriteErr Unit :=
  if snap then ([.direct], directOutcome)
  else
    match atomicOutcome with
    | .ok _ => ([.atomic], .ok ())
    | .error .EXDEV => ([.atomic, .direct], directOutcome)
    | .error e => ([.atomic], .error e)

/-- `BaseConf.handleChange`: the invocations `(newValue, oldValue)` a
subscription with value getter `g` delivers over the documents committed
while it is subscribed, starting from the value captured at subscribe time.
A broadcast whose fetched value is deeply equal to the captured one is
suppressed; otherwise the callback fires and the captured value advances.
Unsubscribing removes the listener, so the delivered list is over exactly
the documents committed during the subscription window. -/
def fires (g : JVal → Option JVal) (current : Option JVal) :
    List JVal → List (Option JVal × Option JVal)
  | [] => []
  | d :: rest =>
      let newValue := g d
      if optDeepEqual newValue current then fires g current rest
      else (newValue, current) :: fires g newValue rest

/-- The value getter `onDidChange key` subscribes with:
`() => this.get(key)` read against the current document. -/
def keyGetter (key : String) (d : JVal) : Option JVal :=
  getProperty d key none

/-- The value getter `onDidAnyChange` subscribes with: `() => this.store`,
the whole (shallow-cloned) document. -/
def docGetter (d : JVal) : Option JVal :=
  some (cloneObject d)

end BaseConf

namespace BaseConf

/-- The (path, value) pairs a `set` call applies: the single pair, or the
entries of the bulk mapping. -/
def pairsOf : SetArg → List (String × JSVal)
  | .single k v => [(k, v)]
  | .bulk ps => ps

/-- The bookkeeping invariant of the reserved namespace: the document holds
a numeric `migrationVersion` under the top-level `__internal__` key. -/
def hasBookkeeping (d : JVal) : Bool :=
  match getSegs d [INTERNAL_KEY, "migrationVersion"] with
  | some (.num _) => true
  | _ => false

/-- First segment of a dot path, the top-level key it addresses. -/
def firstSeg (key : String) : Option String :=
  (splitPath key).head?

/-- A dot path that does not address into the reserved namespace: its
top-level key differs from `__internal__`. -/
def avoidsReserved (key : String) : Bool :=
  match firstSeg key with
  | some k => !(k == INTERNAL_KEY)
  | none => true

end BaseConf

mutual

/-- Reference deep merge following the words of the spec claim: merge the
second document over the first recursively at every nesting level, the
second document winning on conflicting non-mapping values.  This is the
behaviour the claim ascribes to the constructor and is compared against the
shallow `mergeObject` the source uses. -/
def specDeepMerge : JVal → JVal → JVal
  | .obj fs, .obj gs => .obj (specMergeFields fs gs)
  | _, b => b
termination_by _ b => sizeOf b

/-- Fold the fields of the second list over the first, merging recursively
on key collisions. -/
def specMergeFields : List (String × JVal) → List (String × JVal) → List (String × JVal)
  | fs, [] => fs
  | fs, (k, v) :: rest =>
      let v' :=
        match lookupF k fs with
        | some w => specDeepMerge w v
        | none => v
      specMergeFields (setObjKey fs k v') rest
termination_by _ gs => sizeOf gs

end

/-! ### Heap model of reference sharing

The tree model above identifies a shallow copy with the value it copies;
claims about aliasing need references.  A heap maps addresses to object
field lists; a field holds either an immediate primitive or a reference to
another heap object.  `cloneObjectH` is `cloneObject` in this model: a
fresh address whose field list is copied from the source, the field values
— references to nested objects included — shared. -/

/-- A field value in the heap model: an immediate primitive or a reference
to a heap object. -/
inductive HVal where
  | prim : JVal → HVal
  | ref : Nat → HVal
deriving Repr

/-- An object store: addresses to field lists. -/
abbrev Heap := List (Nat × List (String × HVal))

/-- Look up the object at an address. -/
def heapGet (h : Heap) (r : Nat) : Option (List (String × HVal)) :=
  match h with
  | [] => none
  | (r', fs) :: rest => if r' = r then some fs else heapGet rest r

/-- First binding of a key in a heap object field list. -/
def lookupH (k : String) : List (String × HVal) → Option HVal
  | [] => none
  | (k', v) :: rest => if k' = k then some v else lookupH k rest

/-- JS property assignment on a heap object field list. -/
def setHKey : List (String × HVal) → String → HVal → List (String × HVal)
  | [], k, v => [(k, v)]
  | (k', w) :: rest, k, v =>
      if k' = k then (k', v) :: rest else (k', w) :: setHKey rest k v

/-- Mutate one field of the object at address `r` (a JS property write
through a reference). -/
def setField (h : Heap) (r : Nat) (k : String) (v : HVal) : Heap :=
  match h with
  | [] => []
  | (r', fs) :: rest =>
      if r' = r then (r', setHKey fs k v) :: rest else (r', fs) :: setField rest r k v

/-- Read a value along path segments, dereferencing through the heap. -/
def readPath (h : Heap) : HVal → List String → Option HVal
  | v, [] => some v
  | .ref r, k :: rest =>
      match heapGet h r with
      | some fs =>
          match lookupH k fs with
          | some v => readPath h v rest
          | none => none
      | none => none
  | .prim _, _ :: _ => none

/-- `cloneObject` in the heap model: allocate the shallow copy at a fresh
address; its field list is copied, so the references it holds are shared
with the source object. -/
def cloneObjectH (h : Heap) (r : Nat) (fresh : Nat) : Heap × Nat :=
  match heapGet h r with
  | some fs => (h ++ [(fresh, fs)], fresh)
  | none => (h ++ [(fresh, [])], fresh)

/-- Every reference stored in any object of the heap points to an
allocated object. -/
def closedHeap (h : Heap) : Bool :=
  h.all fun e =>
    e.2.all fun f =>
      match f.2 with
      | .ref r => (heapGet h r).isSome
      | .prim _ => true

namespace BaseConf

/-- The fold of `setProperty` a bulk `set` of plain JSON values performs on
the fetched snapshot. -/
def applyJson (doc : JVal) (pairs : List (String × JVal)) : JVal :=
  pairs.foldl (fun a p => setProperty a p.1 p.2) doc

/-- Lift plain JSON pairs to `set` arguments. -/
def jsonPairs (pairs : List (String × JVal)) : List (String × JSVal) :=
  pairs.map fun p => (p.1, JSVal.json p.2)

end BaseConf

/-! ### Lemmas on the object and path primitives -/

theorem lookupF_setObjKey_self (fs : List (String × JVal)) (k : String) (v : JVal) :
    lookupF k (setObjKey fs k v) = some v := by
  induction fs with
  | nil => simp [setObjKey, lookupF]
  | cons p rest ih =>
      obtain ⟨k', w⟩ := p
      by_cases h : k' = k
      · simp [setObjKey, h, lookupF]
      · simp [setObjKey, h, lookupF, ih]

theorem lookupF_setObjKey_other (fs : List (String × JVal)) (k j : String) (v : JVal)
    (h : j ≠ k) : lookupF j (setObjKey fs k v) = lookupF j fs := by
  have hkj : ¬ k = j := fun hh => h hh.symm
  induction fs with
  | nil => simp [setObjKey, lookupF, hkj]
  | cons p rest ih =>
      obtain ⟨k', w⟩ := p
      by_cases hk : k' = k
      · subst hk
        simp [setObjKey, lookupF, hkj]
      · simp [setObjKey, hk, lookupF, ih]

theorem noDupKeys_setObjKey (fs : List (String × JVal)) (k : String) (v : JVal)
    (h : noDupKeys fs = true) : noDupKeys (setObjKey fs k v) = true := by
  induction fs with
  | nil => simp [setObjKey, noDupKeys, freshKey, lookupF]
  | cons p rest ih =>
      obtain ⟨k', w⟩ := p
      simp only [noDupKeys, Bool.and_eq_true] at h
      by_cases hk : k' = k
      · simpa [setObjKey, hk, noDupKeys] using h
      · have h1 : freshKey k' (setObjKey rest k v) = true := by
          simp only [freshKey] at h ⊢
          rw [lookupF_setObjKey_other rest k k' v hk]
          exact h.1
        simp [setObjKey, hk, noDupKeys, h1, ih h.2]

theorem setObjKey_fresh (fs : List (String × JVal)) (k : String) (v : JVal)
    (h : freshKey k fs = true) : setObjKey fs k v = fs ++ [(k, v)] := by
  induction fs with
  | nil => simp [setObjKey]
  | cons p rest ih =>
      obtain ⟨k', w⟩ := p
      simp only [freshKey, lookupF] at h
      by_cases hk : k' = k
      · simp [hk] at h
      · simp only [freshKey] at ih
        simp [setObjKey, hk, ih (by simpa [hk] using h)]

theorem lookupF_eq_none_iff (k : String) (fs : List (String × JVal)) :
    lookupF k fs = none ↔ k ∉ fs.map Prod.fst := by
  induction fs with
  | nil => simp [lookupF]
  | cons p rest ih =>
      obtain ⟨k', w⟩ := p
      by_cases h : k' = k
      · subst h
        simp [lookupF]
      · have hks : ¬ k = k' := fun hh => h hh.symm
        simp [lookupF, h, ih, hks]

theorem noDupKeys_iff (fs : List (String × JVal)) :
    noDupKeys fs = true ↔ (fs.map Prod.fst).Nodup := by
  induction fs with
  | nil => simp [noDupKeys]
  | cons p rest ih =>
      obtain ⟨k, v⟩ := p
      simp [noDupKeys, freshKey, Option.isNone_iff_eq_none, lookupF_eq_none_iff, ih,
        List.nodup_cons]

theorem noDupKeys_foldl_setObjKey (gs : List (String × JVal)) :
    ∀ acc, noDupKeys acc = true →
      noDupKeys (gs.foldl (fun a p => setObjKey a p.1 p.2) acc) = true := by
  induction gs with
  | nil => intro acc h; simpa using h
  | cons p rest ih =>
      intro acc h
      exact ih _ (noDupKeys_setObjKey acc p.1 p.2 h)

theorem noDupKeys_assignFields (src : JVal) (acc : List (String × JVal))
    (h : noDupKeys acc = true) : noDupKeys (assignFields acc src) = true :=
  noDupKeys_foldl_setObjKey (ownFields src) acc h

theorem cloneObject_noDup (v : JVal) : noDupKeys (assignFields [] v) = true :=
  noDupKeys_assignFields v [] rfl

theorem foldl_setObjKey_eq_append (gs : List (String × JVal)) :
    ∀ acc, ((acc ++ gs).map Prod.fst).Nodup →
      gs.foldl (fun a p => setObjKey a p.1 p.2) acc = acc ++ gs := by
  induction gs with
  | nil => intro acc _; simp
  | cons p rest ih =>
      intro acc h
      obtain ⟨k, v⟩ := p
      have hk : k ∉ acc.map Prod.fst := by
        have hn : (acc.map Prod.fst ++ k :: rest.map Prod.fst).Nodup := by simpa using h
        have hd := (List.nodup_append.mp hn).2.2
        intro hmem
        exact hd hmem (by simp)
      have hfresh : freshKey k acc = true := by
        simp [freshKey, Option.isNone_iff_eq_none, lookupF_eq_none_iff, hk]
      have hstep : setObjKey acc k v = acc ++ [(k, v)] := setObjKey_fresh acc k v hfresh
      have hrec := ih (acc ++ [(k, v)]) (by simpa using h)
      simpa [hstep] using hrec

theorem cloneObject_eq (fs : List (String × JVal)) (h : noDupKeys fs = true) :
    cloneObject (.obj fs) = .obj fs := by
  have : ((([] : List (String × JVal)) ++ fs).map Prod.fst).Nodup := by
    simpa using (noDupKeys_iff fs).mp h
  simp [cloneObject, assignFields, ownFields, foldl_setObjKey_eq_append fs [] this]

theorem splitStep_ne_nil (c : Char) (acc : List String) (h : acc ≠ []) :
    splitStep c acc ≠ [] := by
  cases acc with
  | nil => exact absurd rfl h
  | cons seg rest => by_cases hc : c = '.' <;> simp [splitStep, hc]

theorem splitPath_ne_nil (s : String) : splitPath s ≠ [] := by
  unfold splitPath
  induction s.data with
  | nil => simp
  | cons c cs ih => exact splitStep_ne_nil c _ ih

theorem childObj_obj (o : Option JVal) : ∃ gs, childObj o = .obj gs := by
  match o with
  | none => exact ⟨[], rfl⟩
  | some .null => exact ⟨[], rfl⟩
  | some (.bool _) => exact ⟨[], rfl⟩
  | some (.num _) => exact ⟨[], rfl⟩
  | some (.str _) => exact ⟨[], rfl⟩
  | some (.arr _) => exact ⟨[], rfl⟩
  | some (.obj gs) => exact ⟨gs, rfl⟩

theorem setSegs_obj (fs : List (String × JVal)) (segs : List String) (v : JVal)
    (h : segs ≠ []) : ∃ gs, setSegs (.obj fs) segs v = .obj gs := by
  cases segs with
  | nil => exact absurd rfl h
  | cons k rest =>
      cases rest with
      | nil => exact ⟨_, rfl⟩
      | cons k2 r2 => exact ⟨_, rfl⟩

theorem getSegs_setSegs_self (segs : List String) :
    ∀ (fs : List (String × JVal)) (v : JVal), segs ≠ [] →
      getSegs (setSegs (.obj fs) segs v) segs = some v := by
  induction segs with
  | nil => intro fs v h; exact absurd rfl h
  | cons k rest ih =>
      intro fs v _
      cases rest with
      | nil => simp [setSegs, getSegs, lookupF_setObjKey_self]
      | cons k2 r2 =>
          obtain ⟨gs, hgs⟩ := childObj_obj (lookupF k fs)
          simp only [setSegs, hgs]
          simp [getSegs, lookupF_setObjKey_self, ih gs v (by simp)]

theorem getSegs_setSegs_other_top (fs : List (String × JVal)) (k1 : String)
    (segs : List String) (v : JVal) (j : String) (path : List String) (h : j ≠ k1) :
    getSegs (setSegs (.obj fs) (k1 :: segs) v) (j :: path) = getSegs (.obj fs) (j :: path) := by
  cases segs with
  | nil => simp [setSegs, getSegs, lookupF_setObjKey_other fs k1 j v h]
  | cons k2 r2 =>
      simp [setSegs, getSegs, lookupF_setObjKey_other fs k1 j _ h]

theorem lookupF_delObjKey_other (fs : List (String × JVal)) (k j : String) (h : j ≠ k) :
    lookupF j (delObjKey fs k) = lookupF j fs := by
  have hkj : ¬ k = j := fun hh => h hh.symm
  induction fs with
  | nil => simp [delObjKey, lookupF]
  | cons p rest ih =>
      obtain ⟨k', w⟩ := p
      by_cases hk : k' = k
      · subst hk
        simp [delObjKey, lookupF, hkj]
      · simp [delObjKey, hk, lookupF, ih]

theorem getSegs_deleteSegs_other_top (fs : List (String × JVal)) (k1 : String)
    (segs : List String) (j : String) (path : List String) (h : j ≠ k1) :
    getSegs (deleteSegs (.obj fs) (k1 :: segs)) (j :: path) = getSegs (.obj fs) (j :: path) := by
  cases segs with
  | nil => simp [deleteSegs, getSegs, lookupF_delObjKey_other fs k1 j h]
  | cons k2 r2 =>
      cases hl : lookupF k1 fs with
      | none => simp [deleteSegs, hl]
      | some child =>
          simp [deleteSegs, hl, getSegs, lookupF_setObjKey_other fs k1 j _ h]

theorem noDupKeys_setSegs (fs : List (String × JVal)) (segs : List String) (v : JVal)
    (hne : segs ≠ []) (h : noDupKeys fs = true) :
    ∃ gs, setSegs (.obj fs) segs v = .obj gs ∧ noDupKeys gs = true := by
  cases segs with
  | nil => exact absurd rfl hne
  | cons k rest =>
      cases rest with
      | nil => exact ⟨_, rfl, noDupKeys_setObjKey fs k v h⟩
      | cons k2 r2 => exact ⟨_, rfl, noDupKeys_setObjKey fs k _ h⟩

theorem lookupF_isSome_of_mem (k : String) (v : JVal) (fs : List (String × JVal))
    (h : (k, v) ∈ fs) : (lookupF k fs).isSome = true := by
  induction fs with
  | nil => simp at h
  | cons p rest ih =>
      obtain ⟨k', w⟩ := p
      rcases List.mem_cons.mp h with h1 | h2
      · rw [Prod.mk.injEq] at h1
        obtain ⟨rfl, rfl⟩ := h1
        simp [lookupF]
      · by_cases hk : k' = k
        · simp [lookupF, hk]
        · simp [lookupF, hk, ih h2]

theorem lookupF_nodup_mem (fs : List (String × JVal)) (h : noDupKeys fs = true)
    (k : String) (v : JVal) (hm : (k, v) ∈ fs) : lookupF k fs = some v := by
  induction fs with
  | nil => simp at hm
  | cons p rest ih =>
      obtain ⟨k', w⟩ := p
      simp only [noDupKeys, Bool.and_eq_true] at h
      rcases List.mem_cons.mp hm with h1 | h2
      · rw [Prod.mk.injEq] at h1
        obtain ⟨rfl, rfl⟩ := h1
        simp [lookupF]
      · by_cases hk : k' = k
        · subst hk
          have hs := lookupF_isSome_of_mem k' v rest h2
          have hn : lookupF k' rest = none := by
            have := h.1
            simpa [freshKey, Option.isNone_iff_eq_none] using this
          rw [hn] at hs
          simp at hs
        · simp [lookupF, hk, ih h.2 h2]

mutual

theorem deepEqual_refl : ∀ v : JVal, WFb v = true → deepEqual v v = true
  | .null, _ => rfl
  | .bool b, _ => by simp [deepEqual]
  | .num n, _ => by simp [deepEqual]
  | .str s, _ => by simp [deepEqual]
  | .arr xs, h => by
      simp only [WFb] at h
      simpa [deepEqual] using deepEqualList_refl xs h
  | .obj fs, h => by
      simp only [WFb, Bool.and_eq_true] at h
      simp [deepEqual,
        deepEqualFields_refl_of fs fs h.2 (fun k v hm => lookupF_nodup_mem fs h.1 k v hm)]

theorem deepEqualList_refl : ∀ xs : List JVal, WFbList xs = true → deepEqualList xs xs = true
  | [], _ => rfl
  | x :: xs, h => by
      simp only [WFbList, Bool.and_eq_true] at h
      simp [deepEqualList, deepEqual_refl x h.1, deepEqualList_refl xs h.2]

theorem deepEqualFields_refl_of : ∀ fs gs : List (String × JVal), WFbFields fs = true →
    (∀ k v, (k, v) ∈ fs → lookupF k gs = some v) → deepEqualFields fs gs = true
  | [], _, _, _ => rfl
  | (k, v) :: rest, gs, h, hg => by
      simp only [WFbFields, Bool.and_eq_true] at h
      have h1 : lookupF k gs = some v := hg k v (by simp)
      simp [deepEqualFields, h1, deepEqual_refl v h.1,
        deepEqualFields_refl_of rest gs h.2 (fun k' v' hm => hg k' v' (by simp [hm]))]

end

namespace BaseConf

theorem storeGet_cache (c : Config) (s : St) (d : JVal) (hc : s.cache = some d) :
    storeGet c s = (.ok (cloneObject d), s) := by
  simp [storeGet, hc]

theorem pairsOf_eq (arg : SetArg) :
    (match arg with
     | .single k v => [(k, v)]
     | .bulk ps => ps) = pairsOf arg := by
  cases arg <;> rfl

theorem set_ok_unfold (c : Config) (arg : SetArg) (s : St) (d store' : JVal)
    (hc : s.cache = some d) (hg1 : undefGuard arg = false)
    (hg2 : containsReservedKey arg = false)
    (hap : applyPairs (cloneObject d) (pairsOf arg) = .ok store') :
    set c arg s = storeSet c store' s := by
  rw [set.eq_def, hg1, hg2]
  simp only [Bool.false_eq_true, if_false]
  rw [storeGet_cache c s d hc]
  simp only [pairsOf_eq, hap]

theorem set_err_unfold (c : Config) (arg : SetArg) (s : St) (d : JVal) (e : ConfErr)
    (hc : s.cache = some d) (hg1 : undefGuard arg = false)
    (hg2 : containsReservedKey arg = false)
    (hap : applyPairs (cloneObject d) (pairsOf arg) = .error e) :
    set c arg s = (.error e, s) := by
  rw [set.eq_def, hg1, hg2]
  simp only [Bool.false_eq_true, if_false]
  rw [storeGet_cache c s d hc]
  simp only [pairsOf_eq, hap]

theorem storeSet_novalidator (dv : List (String × JVal)) (value : JVal) (s : St) :
    storeSet ⟨none, dv⟩ value s =
      (.ok (), ⟨some value, some value, s.broadcasts ++ [value]⟩) := by
  simp [storeSet, validate]

end BaseConf

/-! ### Claim theorems -/

/-- C10: on every persist, when the environment variable SNAP is set the
engine uses a single plain direct write and the atomic path is never
attempted; when SNAP is unset the atomic write is attempted, an EXDEV
failure is caught and retried as a direct write whose outcome stands, and
every other atomic-write error is rethrown unchanged with no direct
attempt. -/
theorem claim_C10_write_snap_and_exdev :
    (∀ atomicO directO, BaseConf.write true atomicO directO = ([.direct], directO)
      ∧ BaseConf.WriteMethod.atomic ∉ (BaseConf.write true atomicO directO).1)
    ∧ (∀ directO, BaseConf.write false (.ok ()) directO = ([.atomic], .ok ()))
    ∧ (∀ directO, BaseConf.write false (.error .EXDEV) directO = ([.atomic, .direct], directO))
    ∧ (∀ msg directO,
        BaseConf.write false (.error (.other msg)) directO = ([.atomic], .error (.other msg))) := by
  refine ⟨fun aO dO => ⟨rfl, by simp [BaseConf.write]⟩, fun dO => rfl, fun dO => rfl,
    fun msg dO => rfl⟩

/-- C3 counterexample: the claim says every `set` whose string key equals
the reserved namespace name `__internal__` throws, but
`set('__internal__', 5)` passes both guards (the string check only catches
keys starting with `"__internal__."`), succeeds, and replaces the whole
reserved namespace — bookkeeping included. -/
theorem claim_C3_counterexample :
    BaseConf.set ⟨none, []⟩ (.single ("__internal__") (.json (.num 5)))
      ⟨some (.obj [(("__internal__"), .obj [(("migrationVersion"), .num 1)])]),
       some (.obj [(("__internal__"), .obj [(("migrationVersion"), .num 1)])]), []⟩
      = (.ok (), ⟨some (.obj [(("__internal__"), .num 5)]),
                  some (.obj [(("__internal__"), .num 5)]),
                  [.obj [(("__internal__"), .num 5)]]⟩)
    ∧ BaseConf.hasBookkeeping (.obj [(("__internal__"), .num 5)]) = false :=
  ⟨rfl, rfl⟩

/-- C3 amended: a `set` call throws the reserved-key `TypeError` — leaving
the in-memory document and the on-disk file exactly unchanged — precisely
when the bulk mapping's first top-level key is `__internal__` or a string
key starts with `"__internal__."`; a bare string key exactly equal to
`__internal__` is not rejected.  The claim's two concrete examples do
throw and leave the recorded migration version unchanged. -/
theorem claim_C3_reserved_key_guard :
    (∀ (c : BaseConf.Config) (arg : BaseConf.SetArg) (s : BaseConf.St),
      BaseConf.undefGuard arg = false →
      BaseConf.containsReservedKey arg = true →
      BaseConf.set c arg s =
        (.error (.typeError ("Please do not use the __internal__ key, as it is used to manage this module internal operations.")), s))
    ∧ (∀ pairs : List (String × BaseConf.JSVal),
        BaseConf.containsReservedKey (.bulk pairs) = true
          ↔ (pairs.map Prod.fst).head? = some BaseConf.INTERNAL_KEY)
    ∧ (∀ (k : String) (v : BaseConf.JSVal),
        BaseConf.containsReservedKey (.single k v) = true
          ↔ strStartsWith k (BaseConf.INTERNAL_KEY ++ ".") = true)
    ∧ BaseConf.containsReservedKey
        (.single ("__internal__.migrationVersion") (.json (.num 99))) = true
    ∧ BaseConf.containsReservedKey (.bulk [(("__internal__"), .json (.obj []))]) = true := by
  refine ⟨?_, ?_, ?_, by decide, by decide⟩
  · intro c arg s h1 h2
    rw [BaseConf.set.eq_def, h1, h2]
    simp
  · intro pairs
    cases pairs with
    | nil => simp [BaseConf.containsReservedKey]
    | cons p rest =>
        simp [BaseConf.containsReservedKey, beq_iff_eq]
  · intro k v
    simp [BaseConf.containsReservedKey]

/-- C3 amended witness: the guard theorem applied at the claim's first
concrete example — `set('__internal__.migrationVersion', 99)` throws and
leaves the store state (recorded version included) untouched. -/
theorem claim_C3_reserved_key_guard_witness :
    BaseConf.set ⟨none, []⟩
      (.single ("__internal__.migrationVersion") (.json (.num 99)))
      ⟨some (.obj [(("__internal__"), .obj [(("migrationVersion"), .num 1)])]),
       some (.obj [(("__internal__"), .obj [(("migrationVersion"), .num 1)])]), []⟩
      = (.error (.typeError ("Please do not use the __internal__ key, as it is used to manage this module internal operations.")),
         ⟨some (.obj [(("__internal__"), .obj [(("migrationVersion"), .num 1)])]),
          some (.obj [(("__internal__"), .obj [(("migrationVersion"), .num 1)])]), []⟩) :=
  claim_C3_reserved_key_guard.1 ⟨none, []⟩ _ _ rfl (by decide)

/-- C2: with a schema present, a `set` whose candidate document fails
validation throws the schema violation synchronously and leaves the whole
state — cached document and on-disk file — exactly as it was: validation
happens in the `store` setter before persistence and before the cache
swap. -/
theorem claim_C2_schema_violation_leaves_state (f : JVal → Bool)
    (dv : List (String × JVal)) (arg : BaseConf.SetArg) (s : BaseConf.St) (d store' : JVal)
    (hc : s.cache = some d) (hg1 : BaseConf.undefGuard arg = false)
    (hg2 : BaseConf.containsReservedKey arg = false)
    (hap : BaseConf.applyPairs (cloneObject d) (BaseConf.pairsOf arg) = .ok store')
    (hviol : f store' = false) :
    BaseConf.set ⟨some f, dv⟩ arg s = (.error .schemaViolation, s) := by
  rw [BaseConf.set_ok_unfold ⟨some f, dv⟩ arg s d store' hc hg1 hg2 hap]
  simp [BaseConf.storeSet, BaseConf.validate, hviol]

/-- C2 witness: a schema bounding the string length of `foo` to 10 makes
`set('foo', 'x'.repeat(11))` throw, with the previously stored `foo`
untouched in cache and file. -/
theorem claim_C2_schema_violation_witness :
    BaseConf.set
      ⟨some (fun doc =>
        match getSegs doc [("foo")] with
        | some (.str s) => decide (s.length ≤ 10)
        | _ => true), []⟩
      (.single ("foo") (.json (.str ("xxxxxxxxxxx"))))
      ⟨some (.obj [(("foo"), .str ("old"))]), some (.obj [(("foo"), .str ("old"))]), []⟩
      = (.error .schemaViolation,
         ⟨some (.obj [(("foo"), .str ("old"))]),
          some (.obj [(("foo"), .str ("old"))]), []⟩) :=
  claim_C2_schema_violation_leaves_state _ [] _ _
    (.obj [(("foo"), .str ("old"))]) (.obj [(("foo"), .str ("xxxxxxxxxxx"))])
    rfl rfl (by decide) rfl (by decide)

namespace BaseConf

theorem applyPairs_jsonPairs (pairs : List (String × JVal)) :
    ∀ doc, applyPairs doc (jsonPairs pairs) = .ok (applyJson doc pairs) := by
  induction pairs with
  | nil => intro doc; rfl
  | cons p rest ih =>
      intro doc
      simpa [jsonPairs, applyPairs, applyJson] using ih (setProperty doc p.1 p.2)

end BaseConf

/-- C9: only the first top-level key of a bulk mapping is checked against
the reserved-key guard, so a bulk `set` whose first enumerated key is
ordinary but which contains `__internal__` later passes the guard,
succeeds (without a schema), and overwrites the reserved namespace — the
concrete call `set({a: 1, __internal__: {migrationVersion: 99}})` replaces
the recorded migration version 1 with 99. -/
theorem claim_C9_bulk_set_overwrites_reserved :
    (∀ (pairs : List (String × BaseConf.JSVal)) (p : String × BaseConf.JSVal),
      pairs.head? = some p → p.1 ≠ BaseConf.INTERNAL_KEY →
      BaseConf.containsReservedKey (.bulk pairs) = false)
    ∧ (∀ (dv : List (String × JVal)) (pairs : List (String × JVal))
        (s : BaseConf.St) (d : JVal),
        s.cache = some d →
        BaseConf.containsReservedKey (.bulk (BaseConf.jsonPairs pairs)) = false →
        BaseConf.set ⟨none, dv⟩ (.bulk (BaseConf.jsonPairs pairs)) s
          = (.ok (), ⟨some (BaseConf.applyJson (cloneObject d) pairs),
                      some (BaseConf.applyJson (cloneObject d) pairs),
                      s.broadcasts ++ [BaseConf.applyJson (cloneObject d) pairs]⟩))
    ∧ BaseConf.set ⟨none, []⟩
        (.bulk [(("a"), .json (.num 1)),
                (("__internal__"), .json (.obj [(("migrationVersion"), .num 99)]))])
        ⟨some (.obj [(("__internal__"), .obj [(("migrationVersion"), .num 1)])]),
         some (.obj [(("__internal__"), .obj [(("migrationVersion"), .num 1)])]), []⟩
        = (.ok (), ⟨some (.obj [(("__internal__"), .obj [(("migrationVersion"), .num 99)]),
                               (("a"), .num 1)]),
                    some (.obj [(("__internal__"), .obj [(("migrationVersion"), .num 99)]),
                               (("a"), .num 1)]),
                    [.obj [(("__internal__"), .obj [(("migrationVersion"), .num 99)]),
                          (("a"), .num 1)]]⟩)
    ∧ getSegs (.obj [(("__internal__"), .obj [(("migrationVersion"), .num 1)])])
        [("__internal__"), ("migrationVersion")] = some (.num 1)
    ∧ getSegs (.obj [(("__internal__"), .obj [(("migrationVersion"), .num 99)]),
                    (("a"), .num 1)])
        [("__internal__"), ("migrationVersion")] = some (.num 99) := by
  refine ⟨?_, ?_, rfl, rfl, rfl⟩
  · intro pairs p hp hne
    cases pairs with
    | nil => simp at hp
    | cons q rest =>
        simp only [List.head?] at hp
        cases hp
        simpa [BaseConf.containsReservedKey, beq_iff_eq] using hne
  · intro dv pairs s d hc hg
    rw [BaseConf.set_ok_unfold ⟨none, dv⟩ (.bulk (BaseConf.jsonPairs pairs)) s d
      (BaseConf.applyJson (cloneObject d) pairs) hc rfl hg
      (by simpa [BaseConf.pairsOf] using BaseConf.applyPairs_jsonPairs pairs (cloneObject d))]
    exact BaseConf.storeSet_novalidator dv _ s

/-- C9 witness: the general bulk-success part applied at the concrete
mapping `{a: 1, __internal__: {migrationVersion: 99}}` over a store whose
recorded version is 1. -/
theorem claim_C9_bulk_set_witness :
    BaseConf.set ⟨none, []⟩
      (.bulk (BaseConf.jsonPairs
        [(("a"), .num 1), (("__internal__"), .obj [(("migrationVersion"), .num 99)])]))
      ⟨some (.obj [(("__internal__"), .obj [(("migrationVersion"), .num 1)])]),
       some (.obj [(("__internal__"), .obj [(("migrationVersion"), .num 1)])]), []⟩
      = (.ok (),
         ⟨some (BaseConf.applyJson
            (cloneObject (.obj [(("__internal__"), .obj [(("migrationVersion"), .num 1)])]))
            [(("a"), .num 1), (("__internal__"), .obj [(("migrationVersion"), .num 99)])]),
          some (BaseConf.applyJson
            (cloneObject (.obj [(("__internal__"), .obj [(("migrationVersion"), .num 1)])]))
            [(("a"), .num 1), (("__internal__"), .obj [(("migrationVersion"), .num 99)])]),
          [BaseConf.applyJson
            (cloneObject (.obj [(("__internal__"), .obj [(("migrationVersion"), .num 1)])]))
            [(("a"), .num 1), (("__internal__"), .obj [(("migrationVersion"), .num 99)])]]⟩) :=
  claim_C9_bulk_set_overwrites_reserved.2.1 []
    [(("a"), .num 1), (("__internal__"), .obj [(("migrationVersion"), .num 99)])]
    ⟨some (.obj [(("__internal__"), .obj [(("migrationVersion"), .num 1)])]),
     some (.obj [(("__internal__"), .obj [(("migrationVersion"), .num 1)])]), []⟩
    (.obj [(("__internal__"), .obj [(("migrationVersion"), .num 1)])])
    rfl (by decide)

/-- C6: for every non-reserved dot-path key `k` and JSON value `v`
(banned runtime kinds excluded by construction), `set(k, v)` commits
through the normal path and a following `get(k)` returns exactly the
stored value, which is deeply equal to `v`. -/
theorem claim_C6_set_get_roundtrip (dv : List (String × JVal)) (k : String) (v : JVal)
    (s : BaseConf.St) (d : JVal) (hc : s.cache = some d)
    (hg : strStartsWith k (BaseConf.INTERNAL_KEY ++ ".") = false)
    (hwf : WFb v = true) :
    BaseConf.set ⟨none, dv⟩ (.single k (.json v)) s
      = (.ok (), ⟨some (setProperty (cloneObject d) k v),
                  some (setProperty (cloneObject d) k v),
                  s.broadcasts ++ [setProperty (cloneObject d) k v]⟩)
    ∧ BaseConf.get ⟨none, dv⟩ k none
        ⟨some (setProperty (cloneObject d) k v),
         some (setProperty (cloneObject d) k v),
         s.broadcasts ++ [setProperty (cloneObject d) k v]⟩
      = (.ok (some v),
         ⟨some (setProperty (cloneObject d) k v),
          some (setProperty (cloneObject d) k v),
          s.broadcasts ++ [setProperty (cloneObject d) k v]⟩)
    ∧ deepEqual v v = true := by
  have hne := splitPath_ne_nil k
  have h0 : noDupKeys (assignFields [] d) = true := cloneObject_noDup d
  obtain ⟨gs, hgs, hnd⟩ := noDupKeys_setSegs (assignFields [] d) (splitPath k) v hne h0
  have hD : setProperty (cloneObject d) k v = .obj gs := by
    simpa [setProperty, cloneObject] using hgs
  have hget : getSegs (setProperty (cloneObject d) k v) (splitPath k) = some v := by
    simpa [setProperty, cloneObject] using
      getSegs_setSegs_self (splitPath k) (assignFields [] d) v hne
  have hclone : cloneObject (setProperty (cloneObject d) k v)
      = setProperty (cloneObject d) k v := by
    rw [hD]
    exact cloneObject_eq gs hnd
  refine ⟨?_, ?_, deepEqual_refl v hwf⟩
  · rw [BaseConf.set_ok_unfold ⟨none, dv⟩ (.single k (.json v)) s d
      (setProperty (cloneObject d) k v) hc rfl hg rfl]
    exact BaseConf.storeSet_novalidator dv _ s
  · have hsg := BaseConf.storeGet_cache ⟨none, dv⟩
      ⟨some (setProperty (cloneObject d) k v), some (setProperty (cloneObject d) k v),
       s.broadcasts ++ [setProperty (cloneObject d) k v]⟩
      (setProperty (cloneObject d) k v) rfl
    simp only [BaseConf.get, hsg]
    simp [getProperty, hclone, hget]

/-- C6 witness: the round trip at a concrete nested key and object value —
`set('a.b', {z: 3})` then `get('a.b')` over a store holding `{foo: 7}`. -/
theorem claim_C6_set_get_roundtrip_witness :
    BaseConf.set ⟨none, []⟩ (.single ("a.b") (.json (.obj [(("z"), .num 3)])))
      ⟨some (.obj [(("foo"), .num 7)]), some (.obj [(("foo"), .num 7)]), []⟩
      = (.ok (), ⟨some (setProperty (cloneObject (.obj [(("foo"), .num 7)])) ("a.b")
                    (.obj [(("z"), .num 3)])),
                  some (setProperty (cloneObject (.obj [(("foo"), .num 7)])) ("a.b")
                    (.obj [(("z"), .num 3)])),
                  [] ++ [setProperty (cloneObject (.obj [(("foo"), .num 7)])) ("a.b")
                    (.obj [(("z"), .num 3)])]⟩)
    ∧ BaseConf.get ⟨none, []⟩ ("a.b") none
        ⟨some (setProperty (cloneObject (.obj [(("foo"), .num 7)])) ("a.b")
           (.obj [(("z"), .num 3)])),
         some (setProperty (cloneObject (.obj [(("foo"), .num 7)])) ("a.b")
           (.obj [(("z"), .num 3)])),
         [] ++ [setProperty (cloneObject (.obj [(("foo"), .num 7)])) ("a.b")
           (.obj [(("z"), .num 3)])]⟩
      = (.ok (some (.obj [(("z"), .num 3)])),
         ⟨some (setProperty (cloneObject (.obj [(("foo"), .num 7)])) ("a.b")
            (.obj [(("z"), .num 3)])),
          some (setProperty (cloneObject (.obj [(("foo"), .num 7)])) ("a.b")
            (.obj [(("z"), .num 3)])),
          [] ++ [setProperty (cloneObject (.obj [(("foo"), .num 7)])) ("a.b")
            (.obj [(("z"), .num 3)])]⟩)
    ∧ deepEqual (.obj [(("z"), .num 3)]) (.obj [(("z"), .num 3)]) = true :=
  claim_C6_set_get_roundtrip [] ("a.b") (.obj [(("z"), .num 3)])
    ⟨some (.obj [(("foo"), .num 7)]), some (.obj [(("foo"), .num 7)]), []⟩
    (.obj [(("foo"), .num 7)]) rfl (by decide) (by decide)

namespace BaseConf

theorem avoidsReserved_firstSeg (key : String) (k1 : String) (segs : List String)
    (hsp : splitPath key = k1 :: segs) (hav : avoidsReserved key = true) :
    INTERNAL_KEY ≠ k1 := by
  have hne' : ¬ (k1 = INTERNAL_KEY) := by
    simp only [avoidsReserved, firstSeg, hsp, List.head?] at hav
    simpa using hav
  exact fun h => hne' h.symm

theorem getSegs_setProperty_avoids (fs : List (String × JVal)) (key : String) (j : JVal)
    (hav : avoidsReserved key = true) (path : List String) :
    getSegs (setProperty (.obj fs) key j) (INTERNAL_KEY :: path)
      = getSegs (.obj fs) (INTERNAL_KEY :: path) := by
  cases hsp : splitPath key with
  | nil => exact absurd hsp (splitPath_ne_nil key)
  | cons k1 segs =>
      have hk1 := avoidsReserved_firstSeg key k1 segs hsp hav
      simpa [setProperty, hsp] using
        getSegs_setSegs_other_top fs k1 segs j INTERNAL_KEY path hk1

theorem getSegs_deleteProperty_avoids (fs : List (String × JVal)) (key : String)
    (hav : avoidsReserved key = true) (path : List String) :
    getSegs (deleteProperty (.obj fs) key) (INTERNAL_KEY :: path)
      = getSegs (.obj fs) (INTERNAL_KEY :: path) := by
  cases hsp : splitPath key with
  | nil => exact absurd hsp (splitPath_ne_nil key)
  | cons k1 segs =>
      have hk1 := avoidsReserved_firstSeg key k1 segs hsp hav
      simpa [deleteProperty, hsp] using
        getSegs_deleteSegs_other_top fs k1 segs INTERNAL_KEY path hk1

theorem deleteSegs_noDup (fs : List (String × JVal)) (segs : List String)
    (h : noDupKeys fs = true) :
    ∃ gs, deleteSegs (.obj fs) segs = .obj gs ∧ noDupKeys gs = true := by
  cases segs with
  | nil => exact ⟨fs, rfl, h⟩
  | cons k rest =>
      cases rest with
      | nil =>
          refine ⟨delObjKey fs k, rfl, ?_⟩
          clear * - h
          induction fs with
          | nil => simp [delObjKey, noDupKeys]
          | cons p r ih =>
              obtain ⟨k', w⟩ := p
              simp only [noDupKeys, Bool.and_eq_true] at h
              by_cases hk : k' = k
              · simpa [delObjKey, hk] using h.2
              · have hf : freshKey k' (delObjKey r k) = true := by
                  simp only [freshKey, Option.isNone_iff_eq_none] at h ⊢
                  by_cases hkk : k' = k
                  · exact absurd hkk hk
                  · rw [lookupF_delObjKey_other r k k' (fun hh => hk hh)]
                    exact h.1
                simp [delObjKey, hk, noDupKeys, hf, ih h.2]
      | cons k2 r2 =>
          cases hl : lookupF k fs with
          | none => exact ⟨fs, by simp [deleteSegs, hl], h⟩
          | some child =>
              refine ⟨setObjKey fs k (deleteSegs child (k2 :: r2)), ?_, ?_⟩
              · simp [deleteSegs, hl]
              · exact noDupKeys_setObjKey fs k _ h

theorem applyPairs_preserves (pairs : List (String × JSVal)) :
    ∀ fs, noDupKeys fs = true →
      (∀ p ∈ pairs, avoidsReserved p.1 = true) →
      ∀ d', applyPairs (.obj fs) pairs = .ok d' →
      ∃ gs, d' = .obj gs ∧ noDupKeys gs = true ∧
        ∀ path, getSegs d' (INTERNAL_KEY :: path) = getSegs (.obj fs) (INTERNAL_KEY :: path) := by
  induction pairs with
  | nil =>
      intro fs hnd _ d' hap
      simp only [applyPairs, Except.ok.injEq] at hap
      exact ⟨fs, hap.symm, hnd, by rw [← hap]; intro path; rfl⟩
  | cons p rest ih =>
      intro fs hnd hav d' hap
      obtain ⟨k, v⟩ := p
      cases v with
      | json j =>
          simp only [applyPairs] at hap
          obtain ⟨gs1, hgs1, hnd1⟩ :=
            noDupKeys_setSegs fs (splitPath k) j (splitPath_ne_nil k) hnd
          have hsp : setProperty (.obj fs) k j = .obj gs1 := hgs1
          rw [hsp] at hap
          obtain ⟨gs, hd', hndg, hpres⟩ :=
            ih gs1 hnd1 (fun q hq => hav q (List.mem_cons_of_mem _ hq)) d' hap
          refine ⟨gs, hd', hndg, fun path => ?_⟩
          rw [hpres path, ← hsp]
          exact getSegs_setProperty_avoids fs k j (hav (k, .json j) (by simp)) path
      | undef => simp [applyPairs] at hap
      | fn => simp [applyPairs] at hap
      | sym => simp [applyPairs] at hap

theorem set_ok_inv (c : Config) (arg : SetArg) (s : St) (d : JVal) (r : St)
    (hc : s.cache = some d) (h : set c arg s = (.ok (), r)) :
    ∃ store', applyPairs (cloneObject d) (pairsOf arg) = .ok store'
      ∧ validate c store' = .ok ()
      ∧ undefGuard arg = false ∧ containsReservedKey arg = false
      ∧ r = ⟨some store', some store', s.broadcasts ++ [store']⟩ := by
  by_cases h1 : undefGuard arg = true
  · rw [set.eq_def, h1] at h
    simp at h
  · have h1' : undefGuard arg = false := by simpa using h1
    by_cases h2 : containsReservedKey arg = true
    · rw [set.eq_def, h1', h2] at h
      simp at h
    · have h2' : containsReservedKey arg = false := by simpa using h2
      cases hap : applyPairs (cloneObject d) (pairsOf arg) with
      | error e =>
          rw [set_err_unfold c arg s d e hc h1' h2' hap] at h
          simp at h
      | ok store' =>
          rw [set_ok_unfold c arg s d store' hc h1' h2' hap] at h
          simp only [storeSet] at h
          cases hval : validate c store' with
          | error e => rw [hval] at h; simp at h
          | ok u =>
              cases u
              rw [hval] at h
              simp only [Prod.mk.injEq] at h
              exact ⟨store', rfl, hval, h1', h2', h.2.symm⟩

theorem delete_ok_inv (c : Config) (key : String) (s : St) (d : JVal) (r : St)
    (hc : s.cache = some d) (h : delete c key s = (.ok (), r)) :
    validate c (deleteProperty (cloneObject d) key) = .ok ()
      ∧ r = ⟨some (deleteProperty (cloneObject d) key),
             some (deleteProperty (cloneObject d) key),
             s.broadcasts ++ [deleteProperty (cloneObject d) key]⟩ := by
  rw [delete.eq_def, storeGet_cache c s d hc] at h
  simp only [storeSet] at h
  cases hval : validate c (deleteProperty (cloneObject d) key) with
  | error e => rw [hval] at h; simp at h
  | ok u =>
      cases u
      rw [hval] at h
      simp only [Prod.mk.injEq] at h
      exact ⟨rfl, h.2.symm⟩

theorem reset_step_inv (c : Config) (k : String) (v : JVal) (rest : List String)
    (s s₁ : St)
    (hok : (match set c (.single k (.json v)) s with
            | (.error e, s') => (.error e, s')
            | (.ok _, s') => reset c rest s') = ((.ok () : Except ConfErr Unit), s₁)) :
    ∃ s', set c (.single k (.json v)) s = (.ok (), s')
      ∧ reset c rest s' = (.ok (), s₁) := by
  cases hset : set c (.single k (.json v)) s with
  | mk res s' =>
      cases res with
      | error e => rw [hset] at hok; simp at hok
      | ok u =>
          cases u
          rw [hset] at hok
          exact ⟨s', rfl, hok⟩

end BaseConf

/-- C4 counterexample: the claim says the reserved-namespace invariant is
preserved by every public operation including `clear`, but `clear`
replaces the whole document with a fresh empty plain object and then
restores only declared defaults — on a store with recorded bookkeeping and
no defaults it deletes `__internal__` outright. -/
theorem claim_C4_counterexample :
    BaseConf.clear ⟨none, []⟩
      ⟨some (.obj [(("__internal__"), .obj [(("migrationVersion"), .num 1)]), (("a"), .num 1)]),
       some (.obj [(("__internal__"), .obj [(("migrationVersion"), .num 1)]), (("a"), .num 1)]), []⟩
      = (.ok (), ⟨some (.obj []), some (.obj []), [.obj []]⟩)
    ∧ BaseConf.hasBookkeeping
        (.obj [(("__internal__"), .obj [(("migrationVersion"), .num 1)]), (("a"), .num 1)]) = true
    ∧ BaseConf.hasBookkeeping (.obj []) = false :=
  ⟨rfl, rfl, rfl⟩

/-- C4 amended: once the document records bookkeeping under `__internal__`,
the invariant is preserved by `get` and `has` (no state change at all) and
by every successful `set`, `delete`, and `reset` whose addressed paths all
lie outside the reserved namespace — but not by `clear`, which wipes the
namespace unless the declared defaults happen to reinstate it.  Preservation
is stated on the shallow-cloned snapshot the engine itself reads. -/
theorem claim_C4_invariant_preservation :
    (∀ (c : BaseConf.Config) (key : String) (dflt : Option JVal) (s : BaseConf.St) (d : JVal),
      s.cache = some d →
      BaseConf.get c key dflt s = (.ok (getProperty (cloneObject d) key dflt), s))
    ∧ (∀ (c : BaseConf.Config) (key : String) (s : BaseConf.St) (d : JVal),
      s.cache = some d →
      BaseConf.has c key s = (.ok (hasProperty (cloneObject d) key), s))
    ∧ (∀ (c : BaseConf.Config) (arg : BaseConf.SetArg) (s s₁ : BaseConf.St) (d d₁ : JVal),
      s.cache = some d →
      (∀ p ∈ BaseConf.pairsOf arg, BaseConf.avoidsReserved p.1 = true) →
      BaseConf.set c arg s = (.ok (), s₁) → s₁.cache = some d₁ →
      BaseConf.hasBookkeeping (cloneObject d₁) = BaseConf.hasBookkeeping (cloneObject d))
    ∧ (∀ (c : BaseConf.Config) (key : String) (s s₁ : BaseConf.St) (d d₁ : JVal),
      s.cache = some d → BaseConf.avoidsReserved key = true →
      BaseConf.delete c key s = (.ok (), s₁) → s₁.cache = some d₁ →
      BaseConf.hasBookkeeping (cloneObject d₁) = BaseConf.hasBookkeeping (cloneObject d))
    ∧ (∀ (c : BaseConf.Config) (keys : List String) (s s₁ : BaseConf.St),
      (∀ k ∈ keys, BaseConf.avoidsReserved k = true) →
      BaseConf.reset c keys s = (.ok (), s₁) →
      ∀ (d d₁ : JVal), s.cache = some d → s₁.cache = some d₁ →
      BaseConf.hasBookkeeping (cloneObject d₁) = BaseConf.hasBookkeeping (cloneObject d)) := by
  have hset : ∀ (c : BaseConf.Config) (arg : BaseConf.SetArg) (s s₁ : BaseConf.St) (d d₁ : JVal),
      s.cache = some d →
      (∀ p ∈ BaseConf.pairsOf arg, BaseConf.avoidsReserved p.1 = true) →
      BaseConf.set c arg s = (.ok (), s₁) → s₁.cache = some d₁ →
      BaseConf.hasBookkeeping (cloneObject d₁) = BaseConf.hasBookkeeping (cloneObject d) := by
    intro c arg s s₁ d d₁ hc hav hok hcache
    obtain ⟨store', hap, hval, h1, h2, hr⟩ := BaseConf.set_ok_inv c arg s d s₁ hc hok
    subst hr
    have hd₁ : store' = d₁ := by simpa using hcache
    subst hd₁
    obtain ⟨gs, hd', hnd, hpres⟩ :=
      BaseConf.applyPairs_preserves (BaseConf.pairsOf arg) (assignFields [] d)
        (cloneObject_noDup d) hav store'
        (by simpa only [cloneObject] using hap)
    have hcl : cloneObject store' = store' := by
      rw [hd']
      exact cloneObject_eq gs hnd
    rw [hcl]
    simp only [BaseConf.hasBookkeeping, cloneObject]
    rw [hpres [("migrationVersion")]]
  refine ⟨?_, ?_, hset, ?_, ?_⟩
  · intro c key dflt s d hc
    simp [BaseConf.get, BaseConf.storeGet_cache c s d hc]
  · intro c key s d hc
    simp [BaseConf.has, BaseConf.storeGet_cache c s d hc]
  · intro c key s s₁ d d₁ hc hav hok hcache
    obtain ⟨hval, hr⟩ := BaseConf.delete_ok_inv c key s d s₁ hc hok
    subst hr
    have hd₁ : deleteProperty (cloneObject d) key = d₁ := by simpa using hcache
    subst hd₁
    obtain ⟨gs, hgs, hnd⟩ :=
      BaseConf.deleteSegs_noDup (assignFields [] d) (splitPath key) (cloneObject_noDup d)
    have hdel : deleteProperty (cloneObject d) key = .obj gs := by
      simpa [deleteProperty, cloneObject] using hgs
    have hcl : cloneObject (deleteProperty (cloneObject d) key)
        = deleteProperty (cloneObject d) key := by
      rw [hdel]
      exact cloneObject_eq gs hnd
    rw [hcl]
    simp only [BaseConf.hasBookkeeping, cloneObject]
    rw [BaseConf.getSegs_deleteProperty_avoids (assignFields [] d) key hav [("migrationVersion")]]
  · intro c keys
    induction keys with
    | nil =>
        intro s s₁ _ hok d d₁ hc hcache
        rw [BaseConf.reset] at hok
        simp only [Prod.mk.injEq] at hok
        rw [← hok.2] at hcache
        rw [hc] at hcache
        have : d = d₁ := by simpa using hcache
        rw [this]
    | cons k rest ih =>
        intro s s₁ hav hok d d₁ hc hcache
        simp only [BaseConf.reset] at hok
        cases hlk : (lookupF k c.defaultValues).map deepCloneObject with
        | none =>
            rw [hlk] at hok
            exact ih s s₁ (fun k' hk' => hav k' (by simp [hk'])) hok d d₁ hc hcache
        | some v =>
            rw [hlk] at hok
            replace hok :
                (if isNull v = true then BaseConf.reset c rest s
                 else
                   match BaseConf.set c (.single k (.json v)) s with
                   | (.error e, s') => (.error e, s')
                   | (.ok _, s') => BaseConf.reset c rest s') = (.ok (), s₁) := hok
            by_cases hn : isNull v = true
            · rw [hn] at hok
              simp only [if_true] at hok
              exact ih s s₁ (fun k' hk' => hav k' (by simp [hk'])) hok d d₁ hc hcache
            · have hn' : isNull v = false := by simpa using hn
              rw [hn'] at hok
              simp only [Bool.false_eq_true, if_false] at hok
              obtain ⟨s', hsetok, hrest⟩ := BaseConf.reset_step_inv c k v rest s s₁ hok
              obtain ⟨store', hap, hval, hg1, hg2, hr⟩ :=
                BaseConf.set_ok_inv c (.single k (.json v)) s d s' hc hsetok
              have hstep := hset c (.single k (.json v)) s s' d store' hc
                (by
                  intro p hp
                  simp only [BaseConf.pairsOf, List.mem_singleton] at hp
                  rw [hp]
                  exact hav k (by simp))
                hsetok (by rw [hr])
              have htail := ih s' s₁ (fun k' hk' => hav k' (by simp [hk'])) hrest store' d₁
                (by rw [hr]) hcache
              rw [htail, hstep]

/-- C4 amended witness: the set-preservation part applied at a concrete
non-reserved write `set('a', 2)` over a store whose bookkeeping records
version 1. -/
theorem claim_C4_invariant_preservation_witness :
    BaseConf.hasBookkeeping
        (cloneObject (.obj [(("__internal__"), .obj [(("migrationVersion"), .num 1)]),
                            (("a"), .num 2)]))
      = BaseConf.hasBookkeeping
        (cloneObject (.obj [(("__internal__"), .obj [(("migrationVersion"), .num 1)])])) :=
  claim_C4_invariant_preservation.2.2.1 ⟨none, []⟩ (.single ("a") (.json (.num 2)))
    ⟨some (.obj [(("__internal__"), .obj [(("migrationVersion"), .num 1)])]),
     some (.obj [(("__internal__"), .obj [(("migrationVersion"), .num 1)])]), []⟩
    ⟨some (.obj [(("__internal__"), .obj [(("migrationVersion"), .num 1)]), (("a"), .num 2)]),
     some (.obj [(("__internal__"), .obj [(("migrationVersion"), .num 1)]), (("a"), .num 2)]),
     [.obj [(("__internal__"), .obj [(("migrationVersion"), .num 1)]), (("a"), .num 2)]]⟩
    (.obj [(("__internal__"), .obj [(("migrationVersion"), .num 1)])])
    (.obj [(("__internal__"), .obj [(("migrationVersion"), .num 1)]), (("a"), .num 2)])
    rfl (by decide) rfl rfl

/-- C7: a subscription fires exactly when the fetched value differs deeply
from the captured one — a deeply equal value is suppressed, a differing one
invokes `callback(newValue, oldValue)` and advances the captured value —
and the delivered list ranges over exactly the documents committed during
the subscription window (unsubscribing removes the listener).  Concretely
for `onDidChange('foo')`: `set('foo','x')` delivers `('x', undefined)`, a
following `delete('foo')` delivers `(undefined, 'x')`, a later write after
unsubscribing only extends the broadcast log; and for `onDidAnyChange` a
deep-equal (no-op) rewrite of `foo` broadcasts but is suppressed. -/
theorem claim_C7_change_notification :
    (∀ (g : JVal → Option JVal) (cur : Option JVal) (d : JVal) (rest : List JVal),
      optDeepEqual (g d) cur = true →
      BaseConf.fires g cur (d :: rest) = BaseConf.fires g cur rest)
    ∧ (∀ (g : JVal → Option JVal) (cur : Option JVal) (d : JVal) (rest : List JVal),
      optDeepEqual (g d) cur = false →
      BaseConf.fires g cur (d :: rest) = (g d, cur) :: BaseConf.fires g (g d) rest)
    ∧ BaseConf.set ⟨none, []⟩ (.single ("foo") (.json (.str ("x"))))
        ⟨some (.obj []), some (.obj []), []⟩
        = (.ok (), ⟨some (.obj [(("foo"), .str ("x"))]),
                    some (.obj [(("foo"), .str ("x"))]),
                    [.obj [(("foo"), .str ("x"))]]⟩)
    ∧ BaseConf.delete ⟨none, []⟩ ("foo")
        ⟨some (.obj [(("foo"), .str ("x"))]), some (.obj [(("foo"), .str ("x"))]),
         [.obj [(("foo"), .str ("x"))]]⟩
        = (.ok (), ⟨some (.obj []), some (.obj []),
                    [.obj [(("foo"), .str ("x"))], .obj []]⟩)
    ∧ BaseConf.keyGetter ("foo") (.obj []) = none
    ∧ BaseConf.fires (BaseConf.keyGetter ("foo")) none
        [.obj [(("foo"), .str ("x"))], .obj []]
        = [(some (.str ("x")), none), (none, some (.str ("x")))]
    ∧ BaseConf.set ⟨none, []⟩ (.single ("foo") (.json (.str ("y"))))
        ⟨some (.obj []), some (.obj []), [.obj [(("foo"), .str ("x"))], .obj []]⟩
        = (.ok (), ⟨some (.obj [(("foo"), .str ("y"))]),
                    some (.obj [(("foo"), .str ("y"))]),
                    [.obj [(("foo"), .str ("x"))], .obj [], .obj [(("foo"), .str ("y"))]]⟩)
    ∧ BaseConf.set ⟨none, []⟩ (.single ("foo") (.json (.str ("x"))))
        ⟨some (.obj [(("foo"), .str ("x"))]), some (.obj [(("foo"), .str ("x"))]),
         [.obj [(("foo"), .str ("x"))]]⟩
        = (.ok (), ⟨some (.obj [(("foo"), .str ("x"))]),
                    some (.obj [(("foo"), .str ("x"))]),
                    [.obj [(("foo"), .str ("x"))], .obj [(("foo"), .str ("x"))]]⟩)
    ∧ BaseConf.fires BaseConf.docGetter (BaseConf.docGetter (.obj []))
        [.obj [(("foo"), .str ("x"))], .obj [(("foo"), .str ("x"))]]
        = [(some (.obj [(("foo"), .str ("x"))]), some (.obj []))] := by
  refine ⟨?_, ?_, rfl, rfl, rfl, rfl, rfl, rfl, rfl⟩
  · intro g cur d rest h
    simp [BaseConf.fires, h]
  · intro g cur d rest h
    simp [BaseConf.fires, h]

/-- C7 witness: the suppression part applied concretely — a broadcast whose
whole-document value is deeply equal to the captured one delivers
nothing. -/
theorem claim_C7_change_notification_witness :
    BaseConf.fires BaseConf.docGetter (some (.obj [])) [.obj []]
      = BaseConf.fires BaseConf.docGetter (some (.obj [])) [] :=
  claim_C7_change_notification.1 BaseConf.docGetter (some (.obj [])) (.obj []) [] (by decide)

mutual

theorem deepCloneObject_id : ∀ v : JVal, deepCloneObject v = v
  | .null => rfl
  | .bool _ => rfl
  | .num _ => rfl
  | .str _ => rfl
  | .arr xs => by rw [deepCloneObject, deepCloneList_id xs]
  | .obj fs => by rw [deepCloneObject, deepCloneFields_id fs]

theorem deepCloneList_id : ∀ xs : List JVal, deepCloneList xs = xs
  | [] => rfl
  | x :: xs => by rw [deepCloneList, deepCloneObject_id x, deepCloneList_id xs]

theorem deepCloneFields_id : ∀ fs : List (String × JVal), deepCloneFields fs = fs
  | [] => rfl
  | (k, v) :: rest => by rw [deepCloneFields, deepCloneObject_id v, deepCloneFields_id rest]

end

/-- C5 counterexample: the claim says conflicting keys are merged
recursively at nested levels, but `mergeObject` is `Object.assign` — a
top-level-only merge.  With defaults `{a: {x: 1}}` over a file holding
`{a: {y: 2}}` the engine keeps `{a: {y: 2}}` (no `a.x`), whereas the
recursive merge the claim describes would keep `a.x = 1` alongside
`a.y = 2`. -/
theorem claim_C5_counterexample :
    BaseConf.construct none (some [(("a"), .obj [(("x"), .num 1)])]) none
        (some (.obj [(("a"), .obj [(("y"), .num 2)])]))
      = (.ok (), (⟨none, [(("a"), .obj [(("x"), .num 1)])]⟩,
                  ⟨some (.obj [(("a"), .obj [(("y"), .num 2)])]),
                   some (.obj [(("a"), .obj [(("y"), .num 2)])]), []⟩))
    ∧ hasProperty (mergeObject (deepCloneObject (.obj [(("a"), .obj [(("x"), .num 1)])]))
        (.obj [(("a"), .obj [(("y"), .num 2)])])) ("a.x") = false
    ∧ hasProperty (specDeepMerge (.obj [(("a"), .obj [(("x"), .num 1)])])
        (.obj [(("a"), .obj [(("y"), .num 2)])])) ("a.x") = true
    ∧ hasProperty (specDeepMerge (.obj [(("a"), .obj [(("x"), .num 1)])])
        (.obj [(("a"), .obj [(("y"), .num 2)])])) ("a.y") = true := by
  have hm : specDeepMerge (.obj [(("a"), .obj [(("x"), .num 1)])])
      (.obj [(("a"), .obj [(("y"), .num 2)])])
      = .obj [(("a"), .obj [(("x"), .num 1), (("y"), .num 2)])] := by
    simp [specDeepMerge, specMergeFields, lookupF, setObjKey]
  refine ⟨rfl, by decide, ?_, ?_⟩
  · rw [hm]
    decide
  · rw [hm]
    decide

/-- C5 amended: the constructor deep-clones the defaults (value-faithfully),
merges the loaded document over them SHALLOWLY — `Object.assign`, so on a
conflicting top-level key the loaded value replaces the default wholesale,
with no recursive merging at nested levels — validates the merged result
(fatal on violation, as is a violation of the loaded document itself), and
persists the merged result immediately if and only if it differs from the
loaded document by deep structural equality.  (Stated for constructions
without migrations.) -/
theorem claim_C5_defaults_shallow_merge (vd : Option (JVal → Bool))
    (dflts : List (String × JVal)) (file0 : Option JVal) :
    deepCloneObject (.obj dflts) = .obj dflts
    ∧ (∀ e, BaseConf.validate ⟨vd, dflts⟩ (BaseConf.read ⟨none, file0, []⟩) = .error e →
        BaseConf.construct vd (some dflts) none file0
          = (.error e, (⟨vd, dflts⟩, ⟨some (BaseConf.read ⟨none, file0, []⟩), file0, []⟩)))
    ∧ (∀ e, BaseConf.validate ⟨vd, dflts⟩ (BaseConf.read ⟨none, file0, []⟩) = .ok () →
        BaseConf.validate ⟨vd, dflts⟩
          (mergeObject (deepCloneObject (.obj dflts)) (BaseConf.read ⟨none, file0, []⟩))
          = .error e →
        BaseConf.construct vd (some dflts) none file0
          = (.error e, (⟨vd, dflts⟩, ⟨some (BaseConf.read ⟨none, file0, []⟩), file0, []⟩)))
    ∧ (BaseConf.validate ⟨vd, dflts⟩ (BaseConf.read ⟨none, file0, []⟩) = .ok () →
        BaseConf.validate ⟨vd, dflts⟩
          (mergeObject (deepCloneObject (.obj dflts)) (BaseConf.read ⟨none, file0, []⟩))
          = .ok () →
        deepEqual (BaseConf.read ⟨none, file0, []⟩)
          (mergeObject (deepCloneObject (.obj dflts)) (BaseConf.read ⟨none, file0, []⟩)) = true →
        BaseConf.construct vd (some dflts) none file0
          = (.ok (), (⟨vd, dflts⟩, ⟨some (BaseConf.read ⟨none, file0, []⟩), file0, []⟩)))
    ∧ (BaseConf.validate ⟨vd, dflts⟩ (BaseConf.read ⟨none, file0, []⟩) = .ok () →
        BaseConf.validate ⟨vd, dflts⟩
          (mergeObject (deepCloneObject (.obj dflts)) (BaseConf.read ⟨none, file0, []⟩))
          = .ok () →
        deepEqual (BaseConf.read ⟨none, file0, []⟩)
          (mergeObject (deepCloneObject (.obj dflts)) (BaseConf.read ⟨none, file0, []⟩)) = false →
        BaseConf.construct vd (some dflts) none file0
          = (.ok (), (⟨vd, dflts⟩,
              ⟨some (mergeObject (deepCloneObject (.obj dflts)) (BaseConf.read ⟨none, file0, []⟩)),
               some (mergeObject (deepCloneObject (.obj dflts)) (BaseConf.read ⟨none, file0, []⟩)),
               [mergeObject (deepCloneObject (.obj dflts)) (BaseConf.read ⟨none, file0, []⟩)]⟩))) := by
  refine ⟨deepCloneObject_id (.obj dflts), ?_, ?_, ?_, ?_⟩
  · intro e hv1
    simp only [BaseConf.construct, BaseConf.storeGet]
    rw [hv1]
  · intro e hv1 hv2
    simp only [BaseConf.construct, BaseConf.storeGet]
    rw [hv1]
    simp only []
    rw [hv2]
  · intro hv1 hv2 hdeq
    simp only [BaseConf.construct, BaseConf.storeGet]
    rw [hv1]
    simp only []
    rw [hv2, hdeq]
    simp [BaseConf.migrate]
  · intro hv1 hv2 hdeq
    simp only [BaseConf.construct, BaseConf.storeGet]
    rw [hv1]
    simp only []
    rw [hv2, hdeq]
    simp [BaseConf.migrate, BaseConf.storeSet, hv2]

/-- C5 amended witness: the persist branch applied concretely — defaults
`{foo: "bar"}` over a missing file load an empty document, the shallow
merge differs from it, and the merged document is persisted immediately. -/
theorem claim_C5_defaults_shallow_merge_witness :
    BaseConf.construct none (some [(("foo"), .str ("bar"))]) none none
      = (.ok (), (⟨none, [(("foo"), .str ("bar"))]⟩,
          ⟨some (mergeObject (deepCloneObject (.obj [(("foo"), .str ("bar"))]))
             (BaseConf.read ⟨none, none, []⟩)),
           some (mergeObject (deepCloneObject (.obj [(("foo"), .str ("bar"))]))
             (BaseConf.read ⟨none, none, []⟩)),
           [mergeObject (deepCloneObject (.obj [(("foo"), .str ("bar"))]))
             (BaseConf.read ⟨none, none, []⟩)]⟩)) :=
  (claim_C5_defaults_shallow_merge none [(("foo"), .str ("bar"))] none).2.2.2.2
    rfl rfl (by decide)

/-- C1: `migrate` reads the recorded version (0 when absent), sorts the
supplied migrations ascending by version (a stable sort, as JS
`Array.prototype.sort` is), filters to exactly those with version strictly
greater than the recorded one, and runs them in that order; each loop step
invokes the hook with the store and the version in effect before that
migration, then stamps `__internal__.migrationVersion` with the
migration's version and commits it through the normal
validate-then-persist-then-notify `store` setter.  Concretely, migrations
`[v1, v2]` over a file already migrated to version 1 run only the v2 hook
— the sentinel the v1 hook would overwrite stays untouched — and leave the
recorded version at 2, with both commits broadcast. -/
theorem claim_C1_migrations :
    (∀ (c : BaseConf.Config) (ms : List BaseConf.Migration) (s : BaseConf.St)
       (d : JVal) (v₀ : Int),
      s.cache = some d → ms ≠ [] → BaseConf.readVersion (cloneObject d) = .num v₀ →
      BaseConf.migrate c (some ms) s
        = BaseConf.migrateLoop c
            ((BaseConf.sortMigrations ms).filter fun m => decide (v₀ < m.version)) v₀ s)
    ∧ (∀ ms : List BaseConf.Migration, (BaseConf.sortMigrations ms).Perm ms)
    ∧ (∀ ms : List BaseConf.Migration,
        List.Pairwise BaseConf.migLE (BaseConf.sortMigrations ms))
    ∧ (∀ (ms : List BaseConf.Migration) (v₀ : Int) (m : BaseConf.Migration),
        m ∈ (BaseConf.sortMigrations ms).filter (fun m => decide (v₀ < m.version))
          ↔ m ∈ ms ∧ v₀ < m.version)
    ∧ (∀ (c : BaseConf.Config) (m : BaseConf.Migration) (rest : List BaseConf.Migration)
        (v : Int) (s : BaseConf.St),
        BaseConf.migrateLoop c (m :: rest) v s
          = match m.hook v s with
            | (.error e, s') => (.error e, s')
            | (.ok _, s') =>
                match BaseConf.storeGet c s' with
                | (.error e, s'') => (.error e, s'')
                | (.ok store, s'') =>
                    match BaseConf.storeSet c
                        (setProperty store BaseConf.MIGRATION_KEY (.num m.version)) s'' with
                    | (.error e, s₃) => (.error e, s₃)
                    | (.ok _, s₃) => BaseConf.migrateLoop c rest m.version s₃)
    ∧ BaseConf.construct none none
        (some [⟨1, fun _ s => BaseConf.set ⟨none, []⟩ (.single ("foo") (.json (.str ("a")))) s⟩,
               ⟨2, fun _ s => BaseConf.set ⟨none, []⟩ (.single ("bar.baz") (.json (.num 0))) s⟩])
        (some (.obj [(("foo"), .str ("sentinel")),
                     (("__internal__"), .obj [(("migrationVersion"), .num 1)])]))
        = (.ok (), (⟨none, []⟩,
            ⟨some (.obj [(("foo"), .str ("sentinel")),
                         (("__internal__"), .obj [(("migrationVersion"), .num 2)]),
                         (("bar"), .obj [(("baz"), .num 0)])]),
             some (.obj [(("foo"), .str ("sentinel")),
                         (("__internal__"), .obj [(("migrationVersion"), .num 2)]),
                         (("bar"), .obj [(("baz"), .num 0)])]),
             [.obj [(("foo"), .str ("sentinel")),
                    (("__internal__"), .obj [(("migrationVersion"), .num 1)]),
                    (("bar"), .obj [(("baz"), .num 0)])],
              .obj [(("foo"), .str ("sentinel")),
                    (("__internal__"), .obj [(("migrationVersion"), .num 2)]),
                    (("bar"), .obj [(("baz"), .num 0)])]]⟩))
    ∧ getSegs (.obj [(("foo"), .str ("sentinel")),
                     (("__internal__"), .obj [(("migrationVersion"), .num 2)]),
                     (("bar"), .obj [(("baz"), .num 0)])])
        [("__internal__"), ("migrationVersion")] = some (.num 2)
    ∧ getSegs (.obj [(("foo"), .str ("sentinel")),
                     (("__internal__"), .obj [(("migrationVersion"), .num 2)]),
                     (("bar"), .obj [(("baz"), .num 0)])]) [("foo")]
        = some (.str ("sentinel"))
    ∧ getSegs (.obj [(("foo"), .str ("sentinel")),
                     (("__internal__"), .obj [(("migrationVersion"), .num 2)]),
                     (("bar"), .obj [(("baz"), .num 0)])]) [("bar"), ("baz")]
        = some (.num 0) := by
  refine ⟨?_, ?_, ?_, ?_, ?_, rfl, rfl, rfl, rfl⟩
  · intro c ms s d v₀ hc hne hv
    have hemp : ms.isEmpty = false := by
      cases ms with
      | nil => exact absurd rfl hne
      | cons _ _ => rfl
    simp only [BaseConf.migrate, hemp, Bool.false_eq_true, if_false,
      BaseConf.storeGet_cache c s d hc]
    rw [hv]
  · intro ms
    exact List.perm_insertionSort BaseConf.migLE ms
  · intro ms
    exact List.sorted_insertionSort BaseConf.migLE ms
  · intro ms v₀ m
    rw [List.mem_filter]
    simp only [BaseConf.sortMigrations]
    rw [(List.perm_insertionSort BaseConf.migLE ms).mem_iff]
    simp
  · intro c m rest v s
    rfl

/-- C1 witness: the migrate equation applied at the concrete store of the
scenario — cache already loaded, recorded version 1, migrations v1 and
v2. -/
theorem claim_C1_migrations_witness :
    BaseConf.migrate ⟨none, []⟩
      (some [⟨1, fun _ s => BaseConf.set ⟨none, []⟩ (.single ("foo") (.json (.str ("a")))) s⟩,
             ⟨2, fun _ s => BaseConf.set ⟨none, []⟩ (.single ("bar.baz") (.json (.num 0))) s⟩])
      ⟨some (.obj [(("foo"), .str ("sentinel")),
                   (("__internal__"), .obj [(("migrationVersion"), .num 1)])]),
       some (.obj [(("foo"), .str ("sentinel")),
                   (("__internal__"), .obj [(("migrationVersion"), .num 1)])]), []⟩
      = BaseConf.migrateLoop ⟨none, []⟩
          ((BaseConf.sortMigrations
            [⟨1, fun _ s => BaseConf.set ⟨none, []⟩ (.single ("foo") (.json (.str ("a")))) s⟩,
             ⟨2, fun _ s => BaseConf.set ⟨none, []⟩ (.single ("bar.baz") (.json (.num 0))) s⟩]).filter
            fun m => decide ((1 : Int) < m.version)) 1
          ⟨some (.obj [(("foo"), .str ("sentinel")),
                       (("__internal__"), .obj [(("migrationVersion"), .num 1)])]),
           some (.obj [(("foo"), .str ("sentinel")),
                       (("__internal__"), .obj [(("migrationVersion"), .num 1)])]), []⟩ :=
  claim_C1_migrations.1 ⟨none, []⟩ _ _
    (.obj [(("foo"), .str ("sentinel")),
           (("__internal__"), .obj [(("migrationVersion"), .num 1)])])
    1 rfl (List.cons_ne_nil _ _) rfl

theorem heapGet_append_of_some (h tail : Heap) (r : Nat) (g : List (String × HVal))
    (hg : heapGet h r = some g) : heapGet (h ++ tail) r = some g := by
  induction h with
  | nil => simp [heapGet] at hg
  | cons e rest ih =>
      obtain ⟨r', fs⟩ := e
      by_cases hr : r' = r
      · simp only [heapGet, hr, if_pos rfl] at hg ⊢
        simpa using hg
      · simp only [List.cons_append, heapGet, hr, if_false] at hg ⊢
        exact ih hg

theorem heapGet_setField_ne (h : Heap) (r r' : Nat) (k : String) (v : HVal)
    (hne : r' ≠ r) : heapGet (setField h r k v) r' = heapGet h r' := by
  induction h with
  | nil => rfl
  | cons e rest ih =>
      obtain ⟨r₀, fs⟩ := e
      by_cases hr : r₀ = r
      · subst hr
        have : ¬ (r₀ = r') := fun hh => hne hh.symm
        simp [setField, heapGet, this]
      · by_cases hr' : r₀ = r'
        · subst hr'
          simp [setField, heapGet, hr]
        · simp [setField, heapGet, hr, hr', ih]

theorem lookupH_mem (k : String) (fs : List (String × HVal)) (v : HVal)
    (h : lookupH k fs = some v) : (k, v) ∈ fs := by
  induction fs with
  | nil => simp [lookupH] at h
  | cons p rest ih =>
      obtain ⟨k', w⟩ := p
      by_cases hk : k' = k
      · subst hk
        simp only [lookupH] at h
        simp at h
        simp [h]
      · simp only [lookupH, hk, if_false] at h
        exact List.mem_cons_of_mem _ (ih h)

theorem heapGet_mem (h : Heap) (r : Nat) (g : List (String × HVal))
    (hg : heapGet h r = some g) : (r, g) ∈ h := by
  induction h with
  | nil => simp [heapGet] at hg
  | cons e rest ih =>
      obtain ⟨r', fs⟩ := e
      by_cases hr : r' = r
      · subst hr
        simp only [heapGet] at hg
        simp at hg
        simp [hg]
      · simp only [heapGet, hr, if_false] at hg
        exact List.mem_cons_of_mem _ (ih hg)

theorem closedHeap_lookup (h : Heap) (hcl : closedHeap h = true) (r : Nat)
    (g : List (String × HVal)) (hg : heapGet h r = some g) (k : String) (r' : Nat)
    (hlk : lookupH k g = some (.ref r')) : (heapGet h r').isSome = true := by
  have hmemh : (r, g) ∈ h := heapGet_mem h r g hg
  have hmemf : (k, HVal.ref r') ∈ g := lookupH_mem k g _ hlk
  simp only [closedHeap, List.all_eq_true] at hcl
  have := hcl (r, g) hmemh (k, HVal.ref r') hmemf
  simpa using this

theorem readPath_fresh_write (h : Heap) (fs0 : List (String × HVal)) (fresh : Nat)
    (k : String) (v : HVal) (hf : heapGet h fresh = none) (hcl : closedHeap h = true) :
    ∀ (path : List String) (x : HVal),
      (∀ rr, x = .ref rr → (heapGet h rr).isSome = true) →
      readPath (setField (h ++ [(fresh, fs0)]) fresh k v) x path = readPath h x path := by
  intro path
  induction path with
  | nil =>
      intro x _
      cases x <;> rfl
  | cons k1 rest ih =>
      intro x hx
      cases x with
      | prim p => rfl
      | ref rr =>
          have hsome := hx rr rfl
          obtain ⟨g, hg⟩ := Option.isSome_iff_exists.mp hsome
          have hne : rr ≠ fresh := by
            intro heq
            rw [heq, hf] at hg
            exact Option.noConfusion hg
          have hg2 : heapGet (setField (h ++ [(fresh, fs0)]) fresh k v) rr = some g := by
            rw [heapGet_setField_ne _ fresh rr k v hne]
            exact heapGet_append_of_some h _ rr g hg
          simp only [readPath, hg, hg2]
          cases hlk : lookupH k1 g with
          | none => rfl
          | some w =>
              apply ih w
              intro r3 hw
              subst hw
              exact closedHeap_lookup h hcl rr g hg k1 r3 hlk

/-- C8 counterexample: the claim says no external mutation of a returned
value can change the engine's cached state, but `cloneObject` is a shallow
copy: the clone shares the nested objects by reference.  In the heap
model, cloning the cached root `{a: {x: 1}}` and mutating the nested
object reachable from the clone (the very value `get('a')` hands out)
changes what the engine reads from its cached root. -/
theorem claim_C8_counterexample :
    cloneObjectH [(0, [(("a"), HVal.ref 1)]), (1, [(("x"), HVal.prim (.num 1))])] 0 2
      = ([(0, [(("a"), HVal.ref 1)]), (1, [(("x"), HVal.prim (.num 1))]),
          (2, [(("a"), HVal.ref 1)])], 2)
    ∧ readPath [(0, [(("a"), HVal.ref 1)]), (1, [(("x"), HVal.prim (.num 1))]),
                (2, [(("a"), HVal.ref 1)])] (.ref 2) [("a")] = some (.ref 1)
    ∧ readPath [(0, [(("a"), HVal.ref 1)]), (1, [(("x"), HVal.prim (.num 1))]),
                (2, [(("a"), HVal.ref 1)])] (.ref 0) [("a"), ("x")]
        = some (.prim (.num 1))
    ∧ readPath (setField [(0, [(("a"), HVal.ref 1)]), (1, [(("x"), HVal.prim (.num 1))]),
                (2, [(("a"), HVal.ref 1)])] 1 ("x") (.prim (.num 2))) (.ref 0) [("a"), ("x")]
        = some (.prim (.num 2)) :=
  ⟨rfl, rfl, rfl, rfl⟩

/-- C8 amended: the `store` getter (and the snapshots `get` reads) hands
out a fresh shallow copy, never the live cached reference: the clone's
address is new, and a property write at the top level of the clone leaves
everything readable from the cached root unchanged.  Nested objects,
however, are shared by reference (shallow-clone contract), so mutating a
nested object obtained from a returned value does change the cached
state — as the counterexample shows. -/
theorem claim_C8_shallow_clone_isolation (h : Heap) (r fresh : Nat)
    (fs : List (String × HVal)) (hr : heapGet h r = some fs)
    (hf : heapGet h fresh = none) (hcl : closedHeap h = true) :
    (cloneObjectH h r fresh).2 ≠ r
    ∧ ∀ (k : String) (v : HVal) (path : List String),
        readPath (setField (cloneObjectH h r fresh).1 fresh k v) (.ref r) path
          = readPath h (.ref r) path := by
  constructor
  · intro heq
    simp only [cloneObjectH, hr] at heq
    rw [heq, hr] at hf
    exact Option.noConfusion hf
  · intro k v path
    simp only [cloneObjectH, hr]
    apply readPath_fresh_write h fs fresh k v hf hcl path (.ref r)
    intro rr hrr
    cases hrr
    simp [hr]

/-- C8 amended witness: the isolation theorem at the concrete two-object
heap — the clone gets the fresh address 2, and a top-level write on the
clone leaves the value read from the cached root unchanged. -/
theorem claim_C8_shallow_clone_isolation_witness :
    (cloneObjectH [(0, [(("a"), HVal.ref 1)]), (1, [(("x"), HVal.prim (.num 1))])] 0 2).2 ≠ 0
    ∧ readPath
        (setField
          (cloneObjectH [(0, [(("a"), HVal.ref 1)]), (1, [(("x"), HVal.prim (.num 1))])] 0 2).1
          2 ("b") (.prim (.num 7)))
        (.ref 0) [("a"), ("x")]
      = readPath [(0, [(("a"), HVal.ref 1)]), (1, [(("x"), HVal.prim (.num 1))])]
          (.ref 0) [("a"), ("x")] :=
  ⟨(claim_C8_shallow_clone_isolation
      [(0, [(("a"), HVal.ref 1)]), (1, [(("x"), HVal.prim (.num 1))])] 0 2
      [(("a"), HVal.ref 1)] rfl rfl (by decide)).1,
   (claim_C8_shallow_clone_isolation
      [(0, [(("a"), HVal.ref 1)]), (1, [(("x"), HVal.prim (.num 1))])] 0 2
      [(("a"), HVal.ref 1)] rfl rfl (by decide)).2 ("b") (.prim (.num 7)) [("a"), ("x")]⟩
